import Mathlib

/-!
Shallow embedding of the "summer" dependency-injection container (Go).

The Go code stores dependencies in two maps (`dependenciesByName`,
`dependenciesByType`) plus a deduplicating set of injectable instances
(`possibleInjectionSet`), and injects dependencies into struct fields via
reflection.  The embedding models:

  * Go runtime types as `Ty`, interface values as `Value`.  The universe
    includes the untyped nil interface value (`vNilInterface`, whose
    `reflect.TypeOf` is the nil type `tNil`) and slice values (`vSlice`,
    standing for the non-comparable kinds slice/map/func);
  * mutable pointer-to-struct instances through an explicit `Heap`
    (address → value); `reflect.Value.Set` on a field becomes `hSetField`;
  * Go maps as association lists with overwrite-on-insert (`alInsert`);
  * struct layouts (field name, declared type, the value of the
    `summer` struct tag with `""` for an absent tag, and exportedness,
    which via a pointer dereference is exactly `reflect.Value.CanSet`)
    through an environment `Env`; whether a type's method set implements
    the `PostInjector` interface is `Env.postInjector`;
  * Go runtime panics as the `none` result of an `Option`-valued run.
    The modelled panic sites are exactly those of the source:
    `reflect.Type.Kind` on the nil type (inside `getDereferencedType`),
    `reflect.Value.Elem` on a non-pointer and `NumField` on a non-struct
    (inside `iterateFields`), `reflect.Value.Set` with a dependency whose
    dynamic type is not assignable to the field's declared static type
    (inside `performNamedInjection`/`performAutoInjection`; `Ty` holds
    only concrete kinds, on which Go assignability coincides with type
    identity — interface-typed fields are outside the model), and hashing
    a non-comparable key in `interfaceSet.Add` (dependency_set.go).  A
    panicking call returns no defined state to its caller, so `none`
    carries none;
  * post-injection hooks by the trace of targets whose
    `PostInjectionCallback` was invoked, in invocation order.  Hook bodies
    are arbitrary user code outside the container and their effects are
    not modelled;
  * the unspecified iteration order of Go's `range` over the map backing
    `possibleInjectionSet` by passing the iteration sequence of each of
    the two `EachElement` loops in `PerformInjections` explicitly
    (`order1` for the injection pass, `order2` for the hook pass);
    theorems quantify over these orders.
-/

/-- Go runtime types, as far as the container observes them:
`reflect.Type.Kind` distinguishes strings, ints, pointers, slices and
structs, and `reflect.Type.Elem` maps a pointer type to its pointee.
`tNil` is the nil `reflect.Type` — the `reflect.TypeOf` of the untyped
nil interface value — on which `Kind()` panics.  `tSlice` stands for the
non-comparable kinds (slice, map, func). -/
inductive Ty where
  | tNil : Ty
  | tString : Ty
  | tInt : Ty
  | tStruct (name : String) : Ty
  | tPtr (pointee : Ty) : Ty
  | tSlice (elem : Ty) : Ty
  deriving DecidableEq, Repr

/-- Go interface values stored in and injected by the container.
`vNilInterface` is the untyped nil interface value; a `vStruct` is a bare
struct value; a `vPtr` a non-nil pointer to a heap cell; a `vNil` a typed
nil pointer; a `vSlice` a slice value (`id` distinguishes instances — a
model artifact; what matters is that its type is non-comparable). -/
inductive Value where
  | vNilInterface : Value
  | vStr (s : String) : Value
  | vInt (n : Int) : Value
  | vNil (pointee : Ty) : Value
  | vPtr (pointee : Ty) (a : Nat) : Value
  | vSlice (elem : Ty) (id : Nat) : Value
  | vStruct (name : String) (fields : List Value) : Value

mutual

/-- Boolean equality on values (`Value` nests `List Value`, so the
instance is built by hand). -/
def Value.beq : Value → Value → Bool
  | Value.vNilInterface, Value.vNilInterface => true
  | Value.vStr s, Value.vStr t => decide (s = t)
  | Value.vInt m, Value.vInt n => decide (m = n)
  | Value.vNil p, Value.vNil q => decide (p = q)
  | Value.vPtr p a, Value.vPtr q b => decide (p = q) && decide (a = b)
  | Value.vSlice e i, Value.vSlice f j => decide (e = f) && decide (i = j)
  | Value.vStruct n fs, Value.vStruct m gs => decide (n = m) && Value.beqList fs gs
  | _, _ => false

/-- Boolean equality on lists of values. -/
def Value.beqList : List Value → List Value → Bool
  | [], [] => true
  | x :: xs, y :: ys => Value.beq x y && Value.beqList xs ys
  | _, _ => false

end

mutual

theorem Value.beq_iff : (a b : Value) → (Value.beq a b = true ↔ a = b)
  | Value.vNilInterface, Value.vNilInterface => by simp [Value.beq]
  | Value.vNilInterface, Value.vStr s2 => by simp [Value.beq]
  | Value.vNilInterface, Value.vInt n2 => by simp [Value.beq]
  | Value.vNilInterface, Value.vNil p2 => by simp [Value.beq]
  | Value.vNilInterface, Value.vPtr p2 a2 => by simp [Value.beq]
  | Value.vNilInterface, Value.vSlice e2 i2 => by simp [Value.beq]
  | Value.vNilInterface, Value.vStruct n2 fs2 => by simp [Value.beq]
  | Value.vStr s1, Value.vNilInterface => by simp [Value.beq]
  | Value.vStr s1, Value.vStr s2 => by simp [Value.beq]
  | Value.vStr s1, Value.vInt n2 => by simp [Value.beq]
  | Value.vStr s1, Value.vNil p2 => by simp [Value.beq]
  | Value.vStr s1, Value.vPtr p2 a2 => by simp [Value.beq]
  | Value.vStr s1, Value.vSlice e2 i2 => by simp [Value.beq]
  | Value.vStr s1, Value.vStruct n2 fs2 => by simp [Value.beq]
  | Value.vInt n1, Value.vNilInterface => by simp [Value.beq]
  | Value.vInt n1, Value.vStr s2 => by simp [Value.beq]
  | Value.vInt n1, Value.vInt n2 => by simp [Value.beq]
  | Value.vInt n1, Value.vNil p2 => by simp [Value.beq]
  | Value.vInt n1, Value.vPtr p2 a2 => by simp [Value.beq]
  | Value.vInt n1, Value.vSlice e2 i2 => by simp [Value.beq]
  | Value.vInt n1, Value.vStruct n2 fs2 => by simp [Value.beq]
  | Value.vNil p1, Value.vNilInterface => by simp [Value.beq]
  | Value.vNil p1, Value.vStr s2 => by simp [Value.beq]
  | Value.vNil p1, Value.vInt n2 => by simp [Value.beq]
  | Value.vNil p1, Value.vNil p2 => by simp [Value.beq]
  | Value.vNil p1, Value.vPtr p2 a2 => by simp [Value.beq]
  | Value.vNil p1, Value.vSlice e2 i2 => by simp [Value.beq]
  | Value.vNil p1, Value.vStruct n2 fs2 => by simp [Value.beq]
  | Value.vPtr p1 a1, Value.vNilInterface => by simp [Value.beq]
  | Value.vPtr p1 a1, Value.vStr s2 => by simp [Value.beq]
  | Value.vPtr p1 a1, Value.vInt n2 => by simp [Value.beq]
  | Value.vPtr p1 a1, Value.vNil p2 => by simp [Value.beq]
  | Value.vPtr p1 a1, Value.vPtr p2 a2 => by simp [Value.beq]
  | Value.vPtr p1 a1, Value.vSlice e2 i2 => by simp [Value.beq]
  | Value.vPtr p1 a1, Value.vStruct n2 fs2 => by simp [Value.beq]
  | Value.vSlice e1 i1, Value.vNilInterface => by simp [Value.beq]
  | Value.vSlice e1 i1, Value.vStr s2 => by simp [Value.beq]
  | Value.vSlice e1 i1, Value.vInt n2 => by simp [Value.beq]
  | Value.vSlice e1 i1, Value.vNil p2 => by simp [Value.beq]
  | Value.vSlice e1 i1, Value.vPtr p2 a2 => by simp [Value.beq]
  | Value.vSlice e1 i1, Value.vSlice e2 i2 => by simp [Value.beq]
  | Value.vSlice e1 i1, Value.vStruct n2 fs2 => by simp [Value.beq]
  | Value.vStruct n1 fs1, Value.vNilInterface => by simp [Value.beq]
  | Value.vStruct n1 fs1, Value.vStr s2 => by simp [Value.beq]
  | Value.vStruct n1 fs1, Value.vInt n2 => by simp [Value.beq]
  | Value.vStruct n1 fs1, Value.vNil p2 => by simp [Value.beq]
  | Value.vStruct n1 fs1, Value.vPtr p2 a2 => by simp [Value.beq]
  | Value.vStruct n1 fs1, Value.vSlice e2 i2 => by simp [Value.beq]
  | Value.vStruct n1 fs1, Value.vStruct n2 fs2 => by
      simp [Value.beq, Value.beqList_iff fs1 fs2]

theorem Value.beqList_iff : (xs ys : List Value) → (Value.beqList xs ys = true ↔ xs = ys)
  | [], [] => by simp [Value.beqList]
  | [], y :: ys => by simp [Value.beqList]
  | x :: xs, [] => by simp [Value.beqList]
  | x :: xs, y :: ys => by
      simp [Value.beqList, Value.beq_iff x y, Value.beqList_iff xs ys]

end

instance : DecidableEq Value :=
  fun a b => decidable_of_iff (Value.beq a b = true) (Value.beq_iff a b)

mutual

/-- Whether a value's dynamic type is comparable in Go's sense: slices
(and the other non-comparable kinds they stand for) are not, a struct is
comparable exactly when all its fields are.  Hashing a map key of
non-comparable type — as `interfaceSet.Add` does — panics. -/
def comparableVal : Value → Bool
  | Value.vSlice _ _ => false
  | Value.vStruct _ fs => comparableValList fs
  | _ => true

/-- Comparability of every value in a list. -/
def comparableValList : List Value → Bool
  | [] => true
  | x :: xs => comparableVal x && comparableValList xs

end

/-- The runtime type of an interface value (`reflect.TypeOf`); the
untyped nil interface has the nil type. -/
def typeOf : Value → Ty
  | Value.vNilInterface => Ty.tNil
  | Value.vStr _ => Ty.tString
  | Value.vInt _ => Ty.tInt
  | Value.vNil p => Ty.tPtr p
  | Value.vPtr p _ => Ty.tPtr p
  | Value.vSlice e _ => Ty.tSlice e
  | Value.vStruct n _ => Ty.tStruct n

/-- Gets the type of target after a dereference (if necessary); mirrors
`getDereferencedType`.  `Kind()` on the nil type panics (`none`). -/
def getDereferencedType (target : Value) : Option Ty :=
  match typeOf target with
  | Ty.tNil => none
  | Ty.tPtr pointee => some pointee
  | t => some t

/-- Mirrors `isPointerToStruct`: the kind of the (possibly dereferenced)
type is Struct.  Note that, exactly as in the source, a bare struct value
also satisfies this predicate; on the untyped nil interface the check
itself panics (`none`). -/
def isPointerToStruct (target : Value) : Option Bool :=
  match getDereferencedType target with
  | none => none
  | some (Ty.tStruct _) => some true
  | some _ => some false

/-- The mutable store backing pointer instances: address → current value. -/
abbrev Heap := List (Nat × Value)

/-- Reads the cell at an address. -/
def hLookup : Heap → Nat → Option Value
  | [], _ => none
  | (a, v) :: rest, b => if a = b then some v else hLookup rest b

/-- Overwrites the cell at an address (no-op when the address is absent). -/
def hUpdate : Heap → Nat → Value → Heap
  | [], _, _ => []
  | (a, v) :: rest, b, w =>
    if a = b then (a, w) :: rest else (a, v) :: hUpdate rest b w

/-- The effect of `reflect.Value.Set` on field `i` of the struct stored at
address `a`. -/
def hSetField (h : Heap) (a : Nat) (i : Nat) (v : Value) : Heap :=
  match hLookup h a with
  | some (Value.vStruct n fs) => hUpdate h a (Value.vStruct n (fs.set i v))
  | _ => h

/-- The current value of field `j` of the struct stored at address `a`. -/
def fieldAt (h : Heap) (a : Nat) (j : Nat) : Option Value :=
  match hLookup h a with
  | some (Value.vStruct _ fs) => fs.get? j
  | _ => none

/-- Go map lookup, on the association-list model. -/
def alLookup {κ : Type} [DecidableEq κ] : List (κ × Value) → κ → Option Value
  | [], _ => none
  | (k, v) :: rest, k2 => if k = k2 then some v else alLookup rest k2

/-- Go map insertion: overwrites the entry under an existing key, appends
a fresh key. -/
def alInsert {κ : Type} [DecidableEq κ] :
    List (κ × Value) → κ → Value → List (κ × Value)
  | [], k, v => [(k, v)]
  | (k1, v1) :: rest, k, v =>
    if k1 = k then (k1, v) :: rest else (k1, v1) :: alInsert rest k v

/-- Mirrors `interfaceSet.Add` (dependency_set.go): returns whether the
item was new, together with the updated set.  `s.set[target]` hashes the
target, which panics (`none`) when the target's dynamic type is not
comparable. -/
def interfaceSetAdd (s : List Value) (target : Value) : Option (Bool × List Value) :=
  if comparableVal target = false then none
  else if target ∈ s then some (false, s) else some (true, s ++ [target])

/-- One struct field as reflection reports it: name, declared static type,
the value of `Tag.Get "summer"` (`""` when the tag is absent), and whether
`reflect.Value.CanSet` holds for it (through a pointer dereference this is
exactly exportedness). -/
structure FieldDecl where
  fname : String
  ftype : Ty
  tag : String
  canSet : Bool
  deriving DecidableEq, Repr

/-- The reflection environment: struct layouts by struct name, and which
runtime types' method sets implement the `PostInjector` interface. -/
structure Env where
  structDefs : String → List FieldDecl
  postInjector : Ty → Bool

/-- The dependency injection container (`Container`). -/
structure Container where
  dependenciesByName : List (String × Value)
  dependenciesByType : List (Ty × Value)
  possibleInjectionSet : List Value
  deriving DecidableEq

/-- Mirrors `NewContainer`. -/
def NewContainer : Container :=
  Container.mk [] [] []

/-- Mirrors `Container.Add`: store under the name when non-empty, always
store under the exact runtime type (last added of a type wins; for the
untyped nil interface the key is the nil type), and add to the injection
set when injectable.  The call aborts abnormally (`none`) when the
injectability check panics — the target is the untyped nil interface — or
when the set insertion panics on a non-comparable injectable target; a
panicking call returns no defined container state. -/
def Container.Add (c : Container) (target : Value) (name : String) : Option Container :=
  match isPointerToStruct target with
  | none => none
  | some true =>
    match interfaceSetAdd c.possibleInjectionSet target with
    | none => none
    | some pr =>
      some (Container.mk
        (if name ≠ "" then alInsert c.dependenciesByName name target
         else c.dependenciesByName)
        (alInsert c.dependenciesByType (typeOf target) target)
        pr.2)
  | some false =>
    some (Container.mk
      (if name ≠ "" then alInsert c.dependenciesByName name target
       else c.dependenciesByName)
      (alInsert c.dependenciesByType (typeOf target) target)
      c.possibleInjectionSet)

/-- Mirrors `Container.Get`: name-map lookup with a found flag. -/
def Container.Get (c : Container) (name : String) : Option Value × Bool :=
  match alLookup c.dependenciesByName name with
  | some dependency => (some dependency, true)
  | none => (none, false)

/-- The parsed form of a `summer` tag (`fieldTag`). -/
structure FieldTag where
  dependencyName : String
  autoInject : Bool
  deriving DecidableEq, Repr

/-- Splits a character list at every occurrence of `sep`; the accumulator
holds the current segment reversed. -/
def splitOnCharAux (sep : Char) : List Char → List Char → List (List Char)
  | [], acc => [acc.reverse]
  | c :: rest, acc =>
    if c = sep then acc.reverse :: splitOnCharAux sep rest []
    else splitOnCharAux sep rest (c :: acc)

/-- Go's `strings.Split` for a single-character separator: splits at every
occurrence, keeping empty segments (so `goSplit "" sep = [""]`). -/
def goSplit (s : String) (sep : Char) : List String :=
  (splitOnCharAux sep s.toList []).map String.mk

/-- Mirrors `parseFieldTag`.  Format: `dependencyName,[autoInject]`; the
empty string means no request; `autoInject` is set exactly when the split
has a second component equal to `"auto"` (`tagAutoInject`). -/
def parseFieldTag (rawTag : String) : Option FieldTag :=
  if rawTag = "" then none
  else
    let components := goSplit rawTag ','
    let shouldAutoInject :=
      match components.get? 1 with
      | some second => second = "auto"
      | none => false
    some (FieldTag.mk (components.headD "") shouldAutoInject)

/-- The arguments passed around for one field's injection
(`injectionPoint`): the owning struct type, the location of the field
(address of the struct instance and field index), and the field's
declaration. -/
structure InjectionPoint where
  elementType : Ty
  addr : Nat
  index : Nat
  typeField : FieldDecl
  deriving DecidableEq, Repr

/-- The three error sites of the source, as structured errors carrying
exactly the data interpolated into the corresponding `errors.New` message. -/
inductive SummerError where
  | invalidTargetKind : SummerError
  | missingNamedDependency (name : String) (owningType : Ty) (fieldName : String) : SummerError
  | missingTypedDependency (owningType : Ty) (fieldName : String) (fieldType : Ty) : SummerError
  deriving DecidableEq, Repr

/-- Mirrors `Container.performNamedInjection`: name-map lookup, assign on
hit, error on miss.  The assignment `p.field.Set(reflect.ValueOf(dep))`
panics (`none`) when the dependency's dynamic type is not assignable to
the field's declared static type; `Ty` holds only concrete kinds, on
which Go assignability is type identity. -/
def Container.performNamedInjection (c : Container) (h : Heap) (p : InjectionPoint)
    (dependencyName : String) : Option (Heap × Option SummerError) :=
  match alLookup c.dependenciesByName dependencyName with
  | some dependency =>
    if typeOf dependency = p.typeField.ftype then
      some (hSetField h p.addr p.index dependency, none)
    else none
  | none =>
    some (h, some (SummerError.missingNamedDependency dependencyName p.elementType
      p.typeField.fname))

/-- Mirrors `Container.performAutoInjection`: type-map lookup under the
field's declared type, assign on hit, error on miss.  The same
`reflect.Value.Set` assignability panic applies (it cannot fire on a
container whose type-map entries have the runtime type of their key). -/
def Container.performAutoInjection (c : Container) (h : Heap) (p : InjectionPoint) :
    Option (Heap × Option SummerError) :=
  match alLookup c.dependenciesByType p.typeField.ftype with
  | some dependency =>
    if typeOf dependency = p.typeField.ftype then
      some (hSetField h p.addr p.index dependency, none)
    else none
  | none =>
    some (h, some (SummerError.missingTypedDependency p.elementType p.typeField.fname
      p.typeField.ftype))

/-- Mirrors `Container.performInjection`: parse the field's tag; when a
request is present and the field is settable, resolve by name or by type;
otherwise leave the field untouched. -/
def Container.performInjection (c : Container) (h : Heap) (p : InjectionPoint) :
    Option (Heap × Option SummerError) :=
  match parseFieldTag p.typeField.tag with
  | some tag =>
    if p.typeField.canSet then
      if tag.autoInject = false then c.performNamedInjection h p tag.dependencyName
      else c.performAutoInjection h p
    else some (h, none)
  | none => some (h, none)

/-- The field loop of `iterateFields`: runs the callback on each field in
declaration order, stopping at the first error and propagating a panic.
On error the heap written so far is kept (the Go callback mutates in
place; there is no rollback). -/
def iterateFieldsLoop (callback : Heap → InjectionPoint → Option (Heap × Option SummerError))
    (elementType : Ty) (a : Nat) (index : Nat) :
    List FieldDecl → Heap → Option (Heap × Option SummerError)
  | [], h => some (h, none)
  | fd :: rest, h =>
    match callback h (InjectionPoint.mk elementType a index fd) with
    | none => none
    | some (h2, none) => iterateFieldsLoop callback elementType a (index + 1) rest h2
    | some (h2, some e) => some (h2, some e)

/-- Mirrors `iterateFields`: `reflect.ValueOf(target).Elem()` panics
(result `none`) unless the target is a pointer, and the subsequent
`NumField` requires the pointee to be a struct; then every field is
visited in declaration order. -/
def iterateFields (env : Env) (h : Heap) (target : Value)
    (callback : Heap → InjectionPoint → Option (Heap × Option SummerError)) :
    Option (Heap × Option SummerError) :=
  match target with
  | Value.vPtr _ a =>
    match hLookup h a with
    | some (Value.vStruct n _) =>
      iterateFieldsLoop callback (Ty.tStruct n) a 0 (env.structDefs n) h
    | _ => none
  | _ => none

/-- Mirrors `performPostInjectionHook`: the trace of hook invocations this
call makes (one invocation when the target's type implements
`PostInjector`, none otherwise). -/
def performPostInjectionHook (env : Env) (target : Value) : List Value :=
  if env.postInjector (typeOf target) then [target] else []

/-- Mirrors `Container.realInjectInto`.  Result: `none` for a runtime
panic (in the kind check, the field iteration, or a field assignment),
otherwise the final heap, the hook-invocation trace, and the error if
any. -/
def Container.realInjectInto (c : Container) (env : Env) (h : Heap) (target : Value)
    (performHook : Bool) : Option (Heap × List Value × Option SummerError) :=
  match isPointerToStruct target with
  | none => none
  | some false => some (h, [], some SummerError.invalidTargetKind)
  | some true =>
    match iterateFields env h target c.performInjection with
    | none => none
    | some (h2, some e) => some (h2, [], some e)
    | some (h2, none) =>
      if performHook then some (h2, performPostInjectionHook env target, none)
      else some (h2, [], none)

/-- Mirrors `Container.InjectInto`. -/
def Container.InjectInto (c : Container) (env : Env) (h : Heap) (target : Value) :
    Option (Heap × List Value × Option SummerError) :=
  c.realInjectInto env h target true

/-- The first `EachElement` loop of `PerformInjections`: injects each
element of the iteration sequence in turn; once the shared `err` variable
is set the closure no longer does anything, so the state after the loop is
the state at the first failure; a panic aborts the whole call. -/
def performInjectionsLoop (c : Container) (env : Env) :
    List Value → Heap → Option (Heap × Option SummerError)
  | [], h => some (h, none)
  | k :: _rest, h =>
    match c.realInjectInto env h k false with
    | none => none
    | some (h2, _, some e) => some (h2, some e)
    | some (h2, _, none) => performInjectionsLoop c env _rest h2

/-- The second `EachElement` loop of `PerformInjections`: fires the hook
of every element of the iteration sequence that supports it. -/
def runHooks (env : Env) : List Value → List Value
  | [] => []
  | k :: rest => performPostInjectionHook env k ++ runHooks env rest

/-- Mirrors `Container.PerformInjections`.  `order1` and `order2` are the
iteration sequences of the two `EachElement` loops over
`possibleInjectionSet` (Go map iteration order is unspecified, so theorems
quantify over them). -/
def Container.PerformInjections (c : Container) (env : Env) (h : Heap)
    (order1 order2 : List Value) : Option (Heap × List Value × Option SummerError) :=
  match performInjectionsLoop c env order1 h with
  | none => none
  | some (h2, some e) => some (h2, [], some e)
  | some (h2, none) => some (h2, runHooks env order2, none)

/-- The address a value points at, when it is a (non-nil) pointer. -/
def addrOf : Value → Option Nat
  | Value.vPtr _ a => some a
  | _ => none

/-- A container built by a sequence of registrations, starting from `c`;
a panicking registration aborts the build. -/
def buildContainerAux : Container → List (Value × String) → Option Container
  | c, [] => some c
  | c, p :: rest =>
    match c.Add p.1 p.2 with
    | none => none
    | some c2 => buildContainerAux c2 rest

/-- A container built by a sequence of registrations, starting empty. -/
def buildContainer (adds : List (Value × String)) : Option Container :=
  buildContainerAux NewContainer adds

/-! Basic lemmas about the list, association-list and heap primitives. -/

theorem list_get_set_self {α : Type} : ∀ (l : List α) (i : Nat) (v : α), i < l.length →
    (l.set i v).get? i = some v
  | [], i, v, h => by simp at h
  | x :: xs, 0, v, h => by simp
  | x :: xs, i + 1, v, h => by
      simpa using list_get_set_self xs i v (by simpa using h)

theorem list_get_set_ne {α : Type} : ∀ (l : List α) (i j : Nat) (v : α), j ≠ i →
    (l.set i v).get? j = l.get? j
  | [], _, _, _, _ => by simp
  | x :: xs, 0, 0, v, h => absurd rfl h
  | x :: xs, 0, j + 1, v, h => by simp
  | x :: xs, i + 1, 0, v, h => by simp
  | x :: xs, i + 1, j + 1, v, h => by
      simpa using list_get_set_ne xs i j v (by omega)

theorem alLookup_insert_self {κ : Type} [DecidableEq κ] :
    ∀ (m : List (κ × Value)) (k : κ) (v : Value), alLookup (alInsert m k v) k = some v
  | [], k, v => by simp [alInsert, alLookup]
  | (k1, v1) :: rest, k, v => by
      by_cases h : k1 = k
      · subst h; simp [alInsert, alLookup]
      · simp [alInsert, alLookup, h]
        exact alLookup_insert_self rest k v

theorem alLookup_insert_ne {κ : Type} [DecidableEq κ] :
    ∀ (m : List (κ × Value)) (k k2 : κ) (v : Value), k2 ≠ k →
    alLookup (alInsert m k v) k2 = alLookup m k2
  | [], k, k2, v, hne => by
      have hq : ¬ k = k2 := fun q => hne (Eq.symm q)
      simp [alInsert, alLookup, hq]
  | (k1, v1) :: rest, k, k2, v, hne => by
      by_cases h : k1 = k
      · subst h
        have hq : ¬ k1 = k2 := fun q => hne (Eq.symm q)
        simp [alInsert, alLookup, hq]
      · simp only [alInsert, if_neg h]
        by_cases h2 : k1 = k2
        · subst h2; simp [alLookup]
        · simp [alLookup, h2]
          exact alLookup_insert_ne rest k k2 v hne

theorem hLookup_update_ne : ∀ (h : Heap) (a b : Nat) (v : Value), a ≠ b →
    hLookup (hUpdate h a v) b = hLookup h b
  | [], a, b, v, hne => rfl
  | (a1, v1) :: rest, a, b, v, hne => by
      by_cases h1 : a1 = a
      · subst h1; simp [hUpdate, hLookup, hne]
      · simp [hUpdate, hLookup, h1]
        by_cases h2 : a1 = b
        · simp [h2]
        · simp [h2]
          exact hLookup_update_ne rest a b v hne

theorem hLookup_update_found : ∀ (h : Heap) (a : Nat) (v w : Value),
    hLookup h a = some w → hLookup (hUpdate h a v) a = some v
  | [], a, v, w, hc => by simp [hLookup] at hc
  | (a1, v1) :: rest, a, v, w, hc => by
      by_cases h1 : a1 = a
      · subst h1; simp [hUpdate, hLookup]
      · simp [hUpdate, hLookup, h1] at hc ⊢
        exact hLookup_update_found rest a v w hc

theorem hLookup_setField_ne (h : Heap) (a i : Nat) (v : Value) (b : Nat) (hne : b ≠ a) :
    hLookup (hSetField h a i v) b = hLookup h b := by
  unfold hSetField
  cases hc : hLookup h a with
  | none => rfl
  | some w =>
    cases w with
    | vStruct n fs => exact hLookup_update_ne h a b _ (fun q => hne (Eq.symm q))
    | vNilInterface => rfl
    | vStr s => rfl
    | vInt n => rfl
    | vNil p => rfl
    | vPtr p x => rfl
    | vSlice e i2 => rfl

theorem hLookup_setField_self (h : Heap) (a i : Nat) (v : Value) (n : String)
    (fs : List Value) (hc : hLookup h a = some (Value.vStruct n fs)) :
    hLookup (hSetField h a i v) a = some (Value.vStruct n (fs.set i v)) := by
  unfold hSetField
  rw [hc]
  exact hLookup_update_found h a _ _ hc

theorem fieldAt_setField_self (h : Heap) (a i : Nat) (v : Value) (n : String)
    (fs : List Value) (hc : hLookup h a = some (Value.vStruct n fs)) (hlen : i < fs.length) :
    fieldAt (hSetField h a i v) a i = some v := by
  unfold fieldAt
  rw [hLookup_setField_self h a i v n fs hc]
  exact list_get_set_self fs i v hlen

theorem fieldAt_setField_ne_index (h : Heap) (a i j : Nat) (v : Value) (hne : j ≠ i) :
    fieldAt (hSetField h a i v) a j = fieldAt h a j := by
  unfold hSetField
  cases hc : hLookup h a with
  | none => rfl
  | some w =>
    cases w with
    | vStruct n fs =>
      unfold fieldAt
      rw [hLookup_update_found h a _ _ hc, hc]
      exact list_get_set_ne fs i j v hne
    | vNilInterface => rfl
    | vStr s => rfl
    | vInt n => rfl
    | vNil p => rfl
    | vPtr p x => rfl
    | vSlice e i2 => rfl

theorem fieldAt_setField_ne_addr (h : Heap) (a i : Nat) (v : Value) (b j : Nat) (hne : b ≠ a) :
    fieldAt (hSetField h a i v) b j = fieldAt h b j := by
  unfold fieldAt
  rw [hLookup_setField_ne h a i v b hne]

theorem string_mk_toList (s : String) : String.mk s.toList = s := by
  cases s
  rfl

theorem string_toList_append (s t : String) : (s ++ t).toList = s.toList ++ t.toList := by
  cases s
  cases t
  rfl

theorem splitOnCharAux_no_sep (sep : Char) : ∀ (l acc : List Char), sep ∉ l →
    splitOnCharAux sep l acc = [acc.reverse ++ l]
  | [], acc, _ => by simp [splitOnCharAux]
  | c :: rest, acc, hs => by
      have hc : ¬ c = sep := fun q => hs (by simp [q])
      simp only [splitOnCharAux, if_neg hc]
      rw [splitOnCharAux_no_sep sep rest (c :: acc) (fun q => hs (by simp [q]))]
      simp

theorem splitOnCharAux_sep_split (sep : Char) : ∀ (l1 l2 acc : List Char), sep ∉ l1 →
    splitOnCharAux sep (l1 ++ sep :: l2) acc =
      (acc.reverse ++ l1) :: splitOnCharAux sep l2 []
  | [], l2, acc, _ => by simp [splitOnCharAux]
  | c :: rest, l2, acc, hs => by
      have hc : ¬ c = sep := fun q => hs (by simp [q])
      simp only [List.cons_append, splitOnCharAux, if_neg hc]
      show splitOnCharAux sep (rest ++ sep :: l2) (c :: acc) = _
      rw [splitOnCharAux_sep_split sep rest l2 (c :: acc) (fun q => hs (by simp [q]))]
      simp

theorem string_append_assoc (a b c : String) : (a ++ b) ++ c = a ++ (b ++ c) := by
  cases a with
  | mk xs =>
    cases b with
    | mk ys =>
      cases c with
      | mk zs =>
        show String.mk (xs ++ ys ++ zs) = String.mk (xs ++ (ys ++ zs))
        rw [List.append_assoc]

theorem toList_append_comma (s t : String) :
    (s ++ "," ++ t).toList = s.toList ++ ',' :: t.toList := by
  rw [string_toList_append, string_toList_append]
  show (s.toList ++ [',']) ++ t.toList = _
  simp

theorem append_comma_ne_empty (s t : String) : s ++ "," ++ t ≠ "" := by
  intro q
  have h1 := toList_append_comma s t
  rw [q] at h1
  exact absurd h1.symm (by simp [String.toList])

theorem goSplit_no_comma (s : String) (hs : ',' ∉ s.toList) : goSplit s ',' = [s] := by
  unfold goSplit
  rw [splitOnCharAux_no_sep ',' s.toList [] hs]
  simp [string_mk_toList]

theorem goSplit_one_comma (s t : String) (hs : ',' ∉ s.toList) :
    goSplit (s ++ "," ++ t) ',' = s :: goSplit t ',' := by
  unfold goSplit
  rw [toList_append_comma, splitOnCharAux_sep_split ',' s.toList t.toList [] hs]
  simp [string_mk_toList]

/-- Joins segments back with the separator between them (used to form the
single remainder part of the spec's two-part split). -/
def joinChar (sep : Char) : List (List Char) → List Char
  | [] => []
  | [x] => x
  | x :: y :: rest => x ++ sep :: joinChar sep (y :: rest)

/-- Modelled from the spec for comparison with the source's `parseFieldTag`
(claim C6): the spec's grammar splits the raw tag "into at most two parts"
— part 1 is everything before the first separator, part 2 the whole
remainder — and sets `autoInject` exactly when part 2 is present and
exactly equal to the keyword. -/
def parseFieldTagSpec (rawTag : String) : Option FieldTag :=
  if rawTag = "" then none
  else
    let segments := splitOnCharAux ',' rawTag.toList []
    let components :=
      match segments with
      | [] => []
      | x :: rest =>
        if rest.isEmpty then [String.mk x]
        else [String.mk x, String.mk (joinChar ',' rest)]
    let shouldAutoInject :=
      match components.get? 1 with
      | some second => second = "auto"
      | none => false
    some (FieldTag.mk (components.headD "") shouldAutoInject)

theorem runHooks_mem (env : Env) : ∀ (l : List Value) (t : Value),
    t ∈ runHooks env l ↔ (t ∈ l ∧ env.postInjector (typeOf t) = true)
  | [], t => by simp [runHooks]
  | k :: rest, t => by
      by_cases hk : env.postInjector (typeOf k) = true
      · simp only [runHooks, performPostInjectionHook, hk, if_true, List.mem_append,
          List.mem_singleton, List.mem_cons, runHooks_mem env rest t]
        by_cases ht : t = k
        · subst ht; simp [hk]
        · simp [ht]
      · simp only [runHooks, performPostInjectionHook, if_neg hk, List.mem_append,
          List.mem_cons, runHooks_mem env rest t]
        by_cases ht : t = k
        · subst ht; simp [hk]
        · simp [ht]

/-! Characterization of one field's injection.  `resolveErr` and
`resolveVal` are derived read-outs of `Container.performInjection` (they
are not separate translations of the source; the lemmas below prove them
equal to the corresponding projections), exposing that whether a field
fails, and which value it receives, depend only on the container's maps
and the field declaration — not on the heap, the address or the index. -/

/-- The error, if any, that injecting a field with declaration `fd` of a
struct of type `owner` produces. -/
def resolveErr (c : Container) (owner : Ty) (fd : FieldDecl) : Option SummerError :=
  match parseFieldTag fd.tag with
  | some tag =>
    if fd.canSet then
      if tag.autoInject = false then
        match alLookup c.dependenciesByName tag.dependencyName with
        | some _ => none
        | none => some (SummerError.missingNamedDependency tag.dependencyName owner fd.fname)
      else
        match alLookup c.dependenciesByType fd.ftype with
        | some _ => none
        | none => some (SummerError.missingTypedDependency owner fd.fname fd.ftype)
    else none
  | none => none

/-- The value, if any, that injecting a field with declaration `fd`
assigns into the field. -/
def resolveVal (c : Container) (fd : FieldDecl) : Option Value :=
  match parseFieldTag fd.tag with
  | some tag =>
    if fd.canSet then
      if tag.autoInject = false then alLookup c.dependenciesByName tag.dependencyName
      else alLookup c.dependenciesByType fd.ftype
    else none
  | none => none

theorem performInjection_some_snd (c : Container) (h : Heap) (p : InjectionPoint)
    (r : Heap × Option SummerError) (hr : c.performInjection h p = some r) :
    r.2 = resolveErr c p.elementType p.typeField := by
  unfold Container.performInjection at hr
  unfold resolveErr
  cases hp : parseFieldTag p.typeField.tag with
  | none =>
    rw [hp] at hr
    cases hr
    rfl
  | some tag =>
    rw [hp] at hr
    by_cases hset : p.typeField.canSet
    · simp only [hset, if_true] at hr ⊢
      by_cases hauto : tag.autoInject = false
      · simp only [hauto, if_true] at hr ⊢
        unfold Container.performNamedInjection at hr
        cases hq : alLookup c.dependenciesByName tag.dependencyName with
        | some d =>
          rw [hq] at hr
          have hr2 : (if typeOf d = p.typeField.ftype
              then some (hSetField h p.addr p.index d, none)
              else (none : Option (Heap × Option SummerError))) = some r := hr
          show r.2 = none
          by_cases hty : typeOf d = p.typeField.ftype
          · rw [if_pos hty] at hr2
            cases hr2
            rfl
          · rw [if_neg hty] at hr2
            cases hr2
        | none =>
          rw [hq] at hr
          have hr2 : some ((h, some (SummerError.missingNamedDependency tag.dependencyName
              p.elementType p.typeField.fname)) : Heap × Option SummerError) = some r := hr
          cases hr2
          rfl
      · have hauto2 : tag.autoInject = true := by
          cases h0 : tag.autoInject
          · exact absurd h0 hauto
          · rfl
        rw [hauto2] at hr ⊢
        have hr2 : c.performAutoInjection h p = some r := hr
        show r.2 = (match alLookup c.dependenciesByType p.typeField.ftype with
          | some _ => none
          | none => some (SummerError.missingTypedDependency p.elementType p.typeField.fname
              p.typeField.ftype))
        unfold Container.performAutoInjection at hr2
        cases hq : alLookup c.dependenciesByType p.typeField.ftype with
        | some d =>
          rw [hq] at hr2
          have hr3 : (if typeOf d = p.typeField.ftype
              then some (hSetField h p.addr p.index d, none)
              else (none : Option (Heap × Option SummerError))) = some r := hr2
          show r.2 = none
          by_cases hty : typeOf d = p.typeField.ftype
          · rw [if_pos hty] at hr3
            cases hr3
            rfl
          · rw [if_neg hty] at hr3
            cases hr3
        | none =>
          rw [hq] at hr2
          have hr3 : some ((h, some (SummerError.missingTypedDependency p.elementType
              p.typeField.fname p.typeField.ftype)) : Heap × Option SummerError) = some r := hr2
          cases hr3
          rfl
    · have hset2 : p.typeField.canSet = false := by
        cases h0 : p.typeField.canSet
        · rfl
        · exact absurd h0 hset
      rw [hset2] at hr ⊢
      have hr2 : some ((h, none) : Heap × Option SummerError) = some r := hr
      cases hr2
      rfl

theorem performInjection_of_resolveVal (c : Container) (h : Heap) (ty : Ty) (a i : Nat)
    (fd : FieldDecl) (v : Value) (hv : resolveVal c fd = some v)
    (hty : typeOf v = fd.ftype) :
    c.performInjection h (InjectionPoint.mk ty a i fd) = some (hSetField h a i v, none) := by
  cases hp : parseFieldTag fd.tag with
  | none => simp [resolveVal, hp] at hv
  | some tag =>
    cases hset : fd.canSet with
    | false => simp [resolveVal, hp, hset] at hv
    | true =>
      cases hauto : tag.autoInject with
      | false =>
        cases hq : alLookup c.dependenciesByName tag.dependencyName with
        | none => simp [resolveVal, hp, hset, hauto, hq] at hv
        | some d =>
          simp [resolveVal, hp, hset, hauto, hq] at hv
          simp [Container.performInjection, Container.performNamedInjection, hp, hset,
            hauto, hq, hv, hty]
      | true =>
        cases hq : alLookup c.dependenciesByType fd.ftype with
        | none => simp [resolveVal, hp, hset, hauto, hq] at hv
        | some d =>
          simp [resolveVal, hp, hset, hauto, hq] at hv
          simp [Container.performInjection, Container.performAutoInjection, hp, hset,
            hauto, hq, hv, hty]

theorem performInjection_of_resolveErr (c : Container) (h : Heap) (ty : Ty) (a i : Nat)
    (fd : FieldDecl) (e : SummerError) (he : resolveErr c ty fd = some e) :
    c.performInjection h (InjectionPoint.mk ty a i fd) = some (h, some e) := by
  cases hp : parseFieldTag fd.tag with
  | none => simp [resolveErr, hp] at he
  | some tag =>
    cases hset : fd.canSet with
    | false => simp [resolveErr, hp, hset] at he
    | true =>
      cases hauto : tag.autoInject with
      | false =>
        cases hq : alLookup c.dependenciesByName tag.dependencyName with
        | some d => simp [resolveErr, hp, hset, hauto, hq] at he
        | none =>
          simp [resolveErr, hp, hset, hauto, hq] at he
          simp [Container.performInjection, Container.performNamedInjection, hp, hset,
            hauto, hq]
          exact he
      | true =>
        cases hq : alLookup c.dependenciesByType fd.ftype with
        | some d => simp [resolveErr, hp, hset, hauto, hq] at he
        | none =>
          simp [resolveErr, hp, hset, hauto, hq] at he
          simp [Container.performInjection, Container.performAutoInjection, hp, hset,
            hauto, hq]
          exact he

theorem performInjection_untagged (c : Container) (h : Heap) (p : InjectionPoint)
    (ht : p.typeField.tag = "") : c.performInjection h p = some (h, none) := by
  unfold Container.performInjection
  rw [ht]
  rfl

/-- Any single field injection that completes either leaves the heap
unchanged or performs one `hSetField` at its own address and index. -/
theorem performInjection_fst_cases (c : Container) (h : Heap) (p : InjectionPoint)
    (r : Heap × Option SummerError) (hr : c.performInjection h p = some r) :
    r.1 = h ∨ ∃ v, r.1 = hSetField h p.addr p.index v := by
  unfold Container.performInjection at hr
  cases hp : parseFieldTag p.typeField.tag with
  | none =>
    rw [hp] at hr
    cases hr
    exact Or.inl rfl
  | some tag =>
    rw [hp] at hr
    by_cases hset : p.typeField.canSet
    · simp only [hset, if_true] at hr
      by_cases hauto : tag.autoInject = false
      · simp only [hauto, if_true] at hr
        unfold Container.performNamedInjection at hr
        cases hq : alLookup c.dependenciesByName tag.dependencyName with
        | some d =>
          rw [hq] at hr
          have hr2 : (if typeOf d = p.typeField.ftype
              then some (hSetField h p.addr p.index d, none)
              else (none : Option (Heap × Option SummerError))) = some r := hr
          by_cases hty : typeOf d = p.typeField.ftype
          · rw [if_pos hty] at hr2
            cases hr2
            exact Or.inr ⟨d, rfl⟩
          · rw [if_neg hty] at hr2
            cases hr2
        | none =>
          rw [hq] at hr
          have hr2 : some ((h, some (SummerError.missingNamedDependency tag.dependencyName
              p.elementType p.typeField.fname)) : Heap × Option SummerError) = some r := hr
          cases hr2
          exact Or.inl rfl
      · have hauto2 : tag.autoInject = true := by
          cases h0 : tag.autoInject
          · exact absurd h0 hauto
          · rfl
        rw [hauto2] at hr
        have hr2 : c.performAutoInjection h p = some r := hr
        unfold Container.performAutoInjection at hr2
        cases hq : alLookup c.dependenciesByType p.typeField.ftype with
        | some d =>
          rw [hq] at hr2
          have hr3 : (if typeOf d = p.typeField.ftype
              then some (hSetField h p.addr p.index d, none)
              else (none : Option (Heap × Option SummerError))) = some r := hr2
          by_cases hty : typeOf d = p.typeField.ftype
          · rw [if_pos hty] at hr3
            cases hr3
            exact Or.inr ⟨d, rfl⟩
          · rw [if_neg hty] at hr3
            cases hr3
        | none =>
          rw [hq] at hr2
          have hr3 : some ((h, some (SummerError.missingTypedDependency p.elementType
              p.typeField.fname p.typeField.ftype)) : Heap × Option SummerError) = some r := hr2
          cases hr3
          exact Or.inl rfl
    · have hset2 : p.typeField.canSet = false := by
        cases h0 : p.typeField.canSet
        · rfl
        · exact absurd h0 hset
      rw [hset2] at hr
      have hr2 : some ((h, none) : Heap × Option SummerError) = some r := hr
      cases hr2
      exact Or.inl rfl

theorem resolveErr_ne_invalid (c : Container) (ty : Ty) (fd : FieldDecl) :
    resolveErr c ty fd ≠ some SummerError.invalidTargetKind := by
  unfold resolveErr
  cases parseFieldTag fd.tag with
  | none => simp
  | some tag =>
    by_cases hset : fd.canSet
    · by_cases hauto : tag.autoInject = false
      · cases hq : alLookup c.dependenciesByName tag.dependencyName with
        | some d => simp [hset, hauto, hq]
        | none => simp [hset, hauto, hq]
      · cases hq : alLookup c.dependenciesByType fd.ftype with
        | some d => simp [hset, hauto, hq]
        | none => simp [hset, hauto, hq]
    · simp [hset]

/-! Lemmas about the field-iteration loop and the bulk-injection loop. -/

theorem iterateFieldsLoop_append (cb : Heap → InjectionPoint → Option (Heap × Option SummerError))
    (ty : Ty) (a : Nat) (l1 l2 : List FieldDecl) :
    ∀ (i : Nat) (h : Heap), iterateFieldsLoop cb ty a i (l1 ++ l2) h =
      (match iterateFieldsLoop cb ty a i l1 h with
       | none => none
       | some (h1, none) => iterateFieldsLoop cb ty a (i + l1.length) l2 h1
       | some (h1, some e) => some (h1, some e)) := by
  induction l1 with
  | nil => intro i h; simp [iterateFieldsLoop]
  | cons fd rest ih =>
    intro i h
    simp only [List.cons_append, iterateFieldsLoop]
    cases hcb : cb h (InjectionPoint.mk ty a i fd) with
    | none => rfl
    | some res =>
      rcases res with ⟨h2, eo⟩
      cases eo with
      | none =>
        show iterateFieldsLoop cb ty a (i + 1) (rest ++ l2) h2 =
          (match iterateFieldsLoop cb ty a (i + 1) rest h2 with
           | none => none
           | some (h1, none) => iterateFieldsLoop cb ty a (i + (fd :: rest).length) l2 h1
           | some (h1, some e) => some (h1, some e))
        rw [ih (i + 1) h2]
        have harith : i + 1 + rest.length = i + (fd :: rest).length := by
          simp only [List.length_cons]
          omega
        rw [harith]
      | some e => rfl

theorem iterateFieldsLoop_untagged (c : Container) (ty : Ty) (a : Nat) :
    ∀ (decls : List FieldDecl) (i : Nat) (h : Heap),
    (∀ fd ∈ decls, fd.tag = "") →
    iterateFieldsLoop c.performInjection ty a i decls h = some (h, none)
  | [], i, h, _ => rfl
  | fd :: rest, i, h, hall => by
      simp only [iterateFieldsLoop]
      rw [performInjection_untagged c h (InjectionPoint.mk ty a i fd) (hall fd (by simp))]
      exact iterateFieldsLoop_untagged c ty a rest (i + 1) h
        (fun fd2 hm => hall fd2 (by simp [hm]))

theorem iterateFieldsLoop_frame_addr (c : Container) (ty : Ty) (a : Nat) :
    ∀ (decls : List FieldDecl) (i : Nat) (h : Heap) (r : Heap × Option SummerError) (b : Nat),
    b ≠ a → iterateFieldsLoop c.performInjection ty a i decls h = some r →
    hLookup r.1 b = hLookup h b
  | [], i, h, r, b, hb, hr => by
      cases hr
      rfl
  | fd :: rest, i, h, r, b, hb, hr => by
      simp only [iterateFieldsLoop] at hr
      cases hcb : c.performInjection h (InjectionPoint.mk ty a i fd) with
      | none => rw [hcb] at hr; cases hr
      | some res =>
        rw [hcb] at hr
        rcases res with ⟨h2, eo⟩
        have hstep : hLookup h2 b = hLookup h b := by
          rcases performInjection_fst_cases c h (InjectionPoint.mk ty a i fd) (h2, eo) hcb with
            h1 | ⟨v, h1⟩
          · rw [show h2 = h from h1]
          · rw [show h2 = hSetField h a i v from h1]
            exact hLookup_setField_ne h a i v b hb
        cases eo with
        | none =>
          rw [iterateFieldsLoop_frame_addr c ty a rest (i + 1) h2 r b hb hr]
          exact hstep
        | some e =>
          cases hr
          exact hstep

theorem iterateFieldsLoop_frame_index (c : Container) (ty : Ty) (a : Nat) :
    ∀ (decls : List FieldDecl) (i : Nat) (h : Heap) (r : Heap × Option SummerError) (j : Nat),
    (j < i ∨ i + decls.length ≤ j) →
    iterateFieldsLoop c.performInjection ty a i decls h = some r →
    fieldAt r.1 a j = fieldAt h a j
  | [], i, h, r, j, hj, hr => by
      cases hr
      rfl
  | fd :: rest, i, h, r, j, hj, hr => by
      have hlen : (fd :: rest).length = rest.length + 1 := by simp
      have hji : j ≠ i := by rw [hlen] at hj; omega
      have hj2 : j < i + 1 ∨ (i + 1) + rest.length ≤ j := by rw [hlen] at hj; omega
      simp only [iterateFieldsLoop] at hr
      cases hcb : c.performInjection h (InjectionPoint.mk ty a i fd) with
      | none => rw [hcb] at hr; cases hr
      | some res =>
        rw [hcb] at hr
        rcases res with ⟨h2, eo⟩
        have hstep : fieldAt h2 a j = fieldAt h a j := by
          rcases performInjection_fst_cases c h (InjectionPoint.mk ty a i fd) (h2, eo) hcb with
            h1 | ⟨v, h1⟩
          · rw [show h2 = h from h1]
          · rw [show h2 = hSetField h a i v from h1]
            exact fieldAt_setField_ne_index h a i j v hji
        cases eo with
        | none =>
          rw [iterateFieldsLoop_frame_index c ty a rest (i + 1) h2 r j hj2 hr]
          exact hstep
        | some e =>
          cases hr
          exact hstep

theorem iterateFieldsLoop_snd_ne_invalid (c : Container) (ty : Ty) (a : Nat) :
    ∀ (decls : List FieldDecl) (i : Nat) (h : Heap) (r : Heap × Option SummerError),
    iterateFieldsLoop c.performInjection ty a i decls h = some r →
    r.2 ≠ some SummerError.invalidTargetKind
  | [], i, h, r, hr => by
      cases hr
      simp
  | fd :: rest, i, h, r, hr => by
      simp only [iterateFieldsLoop] at hr
      cases hcb : c.performInjection h (InjectionPoint.mk ty a i fd) with
      | none => rw [hcb] at hr; cases hr
      | some res =>
        rw [hcb] at hr
        rcases res with ⟨h2, eo⟩
        cases eo with
        | none => exact iterateFieldsLoop_snd_ne_invalid c ty a rest (i + 1) h2 r hr
        | some e =>
          cases hr
          have hs := performInjection_some_snd c h (InjectionPoint.mk ty a i fd) (h2, some e) hcb
          intro q
          simp only at q
          rw [q] at hs
          exact resolveErr_ne_invalid c ty fd (Eq.symm hs)

theorem performInjectionsLoop_append (c : Container) (env : Env) :
    ∀ (l1 l2 : List Value) (h : Heap),
    performInjectionsLoop c env (l1 ++ l2) h =
      (match performInjectionsLoop c env l1 h with
       | some (h1, none) => performInjectionsLoop c env l2 h1
       | some (h1, some e) => some (h1, some e)
       | none => none)
  | [], l2, h => by simp [performInjectionsLoop]
  | k :: rest, l2, h => by
      simp only [List.cons_append, performInjectionsLoop]
      cases c.realInjectInto env h k false with
      | none => rfl
      | some r =>
        rcases r with ⟨h2, hooks, eo⟩
        cases eo with
        | none => exact performInjectionsLoop_append c env rest l2 h2
        | some e => rfl

/-! Lemmas about whole-target injection. -/

theorem iterateFields_inv (env : Env) (h : Heap) (t : Value)
    (cb : Heap → InjectionPoint → Option (Heap × Option SummerError))
    (res : Heap × Option SummerError) (hit : iterateFields env h t cb = some res) :
    ∃ p a n fs, t = Value.vPtr p a ∧ hLookup h a = some (Value.vStruct n fs) ∧
      iterateFieldsLoop cb (Ty.tStruct n) a 0 (env.structDefs n) h = some res := by
  cases t with
  | vNilInterface => simp [iterateFields] at hit
  | vStr s => simp [iterateFields] at hit
  | vInt n => simp [iterateFields] at hit
  | vNil p => simp [iterateFields] at hit
  | vSlice e i2 => simp [iterateFields] at hit
  | vStruct n fs => simp [iterateFields] at hit
  | vPtr p a =>
    cases hc : hLookup h a with
    | none => simp [iterateFields, hc] at hit
    | some w =>
      cases w with
      | vNilInterface => simp [iterateFields, hc] at hit
      | vStr s => simp [iterateFields, hc] at hit
      | vInt m => simp [iterateFields, hc] at hit
      | vNil q => simp [iterateFields, hc] at hit
      | vPtr q b => simp [iterateFields, hc] at hit
      | vSlice e i2 => simp [iterateFields, hc] at hit
      | vStruct n2 fs2 =>
        refine ⟨p, a, n2, fs2, rfl, hc, ?_⟩
        rw [← hit]
        show iterateFieldsLoop cb (Ty.tStruct n2) a 0 (env.structDefs n2) h =
          (match hLookup h a with
           | some (Value.vStruct n3 _) =>
             iterateFieldsLoop cb (Ty.tStruct n3) a 0 (env.structDefs n3) h
           | _ => none)
        rw [hc]

theorem realInjectInto_single_field (env : Env) (c : Container) (h : Heap)
    (n : String) (a : Nat) (fs : List Value) (pre post : List FieldDecl)
    (fd : FieldDecl) (v : Value)
    (hcell : hLookup h a = some (Value.vStruct n fs))
    (hdef : env.structDefs n = pre ++ fd :: post)
    (hpre : ∀ q ∈ pre, q.tag = "") (hpost : ∀ q ∈ post, q.tag = "")
    (hres : resolveVal c fd = some v) (hty : typeOf v = fd.ftype) :
    c.realInjectInto env h (Value.vPtr (Ty.tStruct n) a) false =
      some (hSetField h a pre.length v, [], none) := by
  have hloop : iterateFieldsLoop c.performInjection (Ty.tStruct n) a 0 (pre ++ fd :: post) h
      = some (hSetField h a pre.length v, none) := by
    rw [iterateFieldsLoop_append c.performInjection (Ty.tStruct n) a pre (fd :: post) 0 h]
    rw [iterateFieldsLoop_untagged c (Ty.tStruct n) a pre 0 h hpre]
    show iterateFieldsLoop c.performInjection (Ty.tStruct n) a (0 + pre.length) (fd :: post) h = _
    have h0 : 0 + pre.length = pre.length := by omega
    rw [h0]
    show (match c.performInjection h (InjectionPoint.mk (Ty.tStruct n) a pre.length fd) with
          | none => none
          | some (h2, none) =>
            iterateFieldsLoop c.performInjection (Ty.tStruct n) a (pre.length + 1) post h2
          | some (h2, some e) => some (h2, some e)) = _
    rw [performInjection_of_resolveVal c h (Ty.tStruct n) a pre.length fd v hres hty]
    exact iterateFieldsLoop_untagged c (Ty.tStruct n) a post (pre.length + 1) _ hpost
  have hiter : iterateFields env h (Value.vPtr (Ty.tStruct n) a) c.performInjection
      = some (hSetField h a pre.length v, none) := by
    show (match hLookup h a with
          | some (Value.vStruct n2 _) =>
            iterateFieldsLoop c.performInjection (Ty.tStruct n2) a 0 (env.structDefs n2) h
          | _ => none) = _
    rw [hcell]
    show iterateFieldsLoop c.performInjection (Ty.tStruct n) a 0 (env.structDefs n) h = _
    rw [hdef, hloop]
  have hptr : isPointerToStruct (Value.vPtr (Ty.tStruct n) a) = some true := rfl
  unfold Container.realInjectInto
  rw [hptr, hiter]
  rfl

theorem realInjectInto_fail_field (env : Env) (c : Container) (h : Heap)
    (n : String) (a : Nat) (fs : List Value) (pre post : List FieldDecl)
    (fd : FieldDecl) (e : SummerError) (performHook : Bool) (hpre : Heap)
    (hcell : hLookup h a = some (Value.vStruct n fs))
    (hdef : env.structDefs n = pre ++ fd :: post)
    (hpreok : iterateFieldsLoop c.performInjection (Ty.tStruct n) a 0 pre h
      = some (hpre, none))
    (hfail : resolveErr c (Ty.tStruct n) fd = some e) :
    c.realInjectInto env h (Value.vPtr (Ty.tStruct n) a) performHook =
      some (hpre, [], some e) := by
  have hloop : iterateFieldsLoop c.performInjection (Ty.tStruct n) a 0 (pre ++ fd :: post) h
      = some (hpre, some e) := by
    rw [iterateFieldsLoop_append c.performInjection (Ty.tStruct n) a pre (fd :: post) 0 h,
      hpreok]
    show iterateFieldsLoop c.performInjection (Ty.tStruct n) a (0 + pre.length)
      (fd :: post) hpre = _
    have h0 : 0 + pre.length = pre.length := by omega
    rw [h0]
    show (match c.performInjection hpre (InjectionPoint.mk (Ty.tStruct n) a pre.length fd) with
          | none => none
          | some (h2, none) =>
            iterateFieldsLoop c.performInjection (Ty.tStruct n) a (pre.length + 1) post h2
          | some (h2, some e2) => some (h2, some e2)) = _
    rw [performInjection_of_resolveErr c hpre (Ty.tStruct n) a pre.length fd e hfail]
  have hiter : iterateFields env h (Value.vPtr (Ty.tStruct n) a) c.performInjection
      = some (hpre, some e) := by
    show (match hLookup h a with
          | some (Value.vStruct n2 _) =>
            iterateFieldsLoop c.performInjection (Ty.tStruct n2) a 0 (env.structDefs n2) h
          | _ => none) = _
    rw [hcell]
    show iterateFieldsLoop c.performInjection (Ty.tStruct n) a 0 (env.structDefs n) h = _
    rw [hdef, hloop]
  have hptr : isPointerToStruct (Value.vPtr (Ty.tStruct n) a) = some true := rfl
  unfold Container.realInjectInto
  rw [hptr, hiter]

theorem realInjectInto_frame (env : Env) (c : Container) (h : Heap) (t : Value)
    (ph : Bool) (r : Heap × List Value × Option SummerError)
    (hr : c.realInjectInto env h t ph = some r) (b : Nat) (hb : addrOf t ≠ some b) :
    hLookup r.1 b = hLookup h b := by
  unfold Container.realInjectInto at hr
  cases hp : isPointerToStruct t with
  | none => rw [hp] at hr; cases hr
  | some bv =>
    rw [hp] at hr
    cases bv with
    | false =>
      have hr2 : some ((h, [], some SummerError.invalidTargetKind) :
          Heap × List Value × Option SummerError) = some r := hr
      cases hr2
      rfl
    | true =>
      cases hit : iterateFields env h t c.performInjection with
      | none => rw [hit] at hr; cases hr
      | some res =>
        rw [hit] at hr
        rcases iterateFields_inv env h t c.performInjection res hit with
          ⟨p, a, n, fs, ht, hc, hres⟩
        have hba : b ≠ a := by
          subst ht
          intro q
          refine hb ?_
          rw [q]
          rfl
        have hframe : hLookup res.1 b = hLookup h b :=
          iterateFieldsLoop_frame_addr c (Ty.tStruct n) a (env.structDefs n) 0 h res b hba hres
        rcases res with ⟨h2, eo⟩
        cases eo with
        | some e =>
          have hr2 : some ((h2, [], some e) : Heap × List Value × Option SummerError)
              = some r := hr
          cases hr2
          exact hframe
        | none =>
          cases ph with
          | true =>
            have hr2 : some ((h2, performPostInjectionHook env t, none) :
                Heap × List Value × Option SummerError) = some r := hr
            cases hr2
            exact hframe
          | false =>
            have hr2 : some ((h2, [], none) :
                Heap × List Value × Option SummerError) = some r := hr
            cases hr2
            exact hframe

theorem performInjectionsLoop_frame (env : Env) (c : Container) :
    ∀ (order : List Value) (h : Heap) (r : Heap × Option SummerError) (b : Nat),
    performInjectionsLoop c env order h = some r →
    (∀ k ∈ order, addrOf k ≠ some b) → hLookup r.1 b = hLookup h b
  | [], h, r, b, hr, _ => by
      cases hr
      rfl
  | k :: rest, h, r, b, hr, hall => by
      simp only [performInjectionsLoop] at hr
      cases hri : c.realInjectInto env h k false with
      | none => rw [hri] at hr; cases hr
      | some r2 =>
        rw [hri] at hr
        have hstep : hLookup r2.1 b = hLookup h b :=
          realInjectInto_frame env c h k false r2 hri b (hall k (by simp))
        rcases r2 with ⟨h2, hooks, eo⟩
        cases eo with
        | some e =>
          cases hr
          exact hstep
        | none =>
          have hrec := performInjectionsLoop_frame env c rest h2 r b hr
            (fun k2 hm => hall k2 (by simp [hm]))
          rw [hrec]
          exact hstep

/-- The two-element mutual-reference scenario: each of the instances at
`aX` and `aY` has exactly one tagged (settable, resolving) field, declared
with exactly the other instance's pointer type, and that field resolves to
the other instance.  Processing the pair in the order `X, Y` succeeds and
leaves each one's tagged field holding the other. -/
theorem performInjectionsLoop_pair (env : Env) (c : Container) (h : Heap)
    (nX nY : String) (aX aY : Nat) (fsX fsY : List Value)
    (preX postX preY postY : List FieldDecl) (fdX fdY : FieldDecl)
    (hne : aX ≠ aY)
    (hcX : hLookup h aX = some (Value.vStruct nX fsX))
    (hcY : hLookup h aY = some (Value.vStruct nY fsY))
    (hdX : env.structDefs nX = preX ++ fdX :: postX)
    (hdY : env.structDefs nY = preY ++ fdY :: postY)
    (hpX1 : ∀ q ∈ preX, q.tag = "") (hpX2 : ∀ q ∈ postX, q.tag = "")
    (hpY1 : ∀ q ∈ preY, q.tag = "") (hpY2 : ∀ q ∈ postY, q.tag = "")
    (hlX : preX.length < fsX.length) (hlY : preY.length < fsY.length)
    (hfX : fdX.ftype = Ty.tPtr (Ty.tStruct nY)) (hfY : fdY.ftype = Ty.tPtr (Ty.tStruct nX))
    (hrX : resolveVal c fdX = some (Value.vPtr (Ty.tStruct nY) aY))
    (hrY : resolveVal c fdY = some (Value.vPtr (Ty.tStruct nX) aX)) :
    ∃ h2, performInjectionsLoop c env
        [Value.vPtr (Ty.tStruct nX) aX, Value.vPtr (Ty.tStruct nY) aY] h = some (h2, none) ∧
      fieldAt h2 aX preX.length = some (Value.vPtr (Ty.tStruct nY) aY) ∧
      fieldAt h2 aY preY.length = some (Value.vPtr (Ty.tStruct nX) aX) := by
  have htyX : typeOf (Value.vPtr (Ty.tStruct nY) aY) = fdX.ftype := by
    rw [hfX]
    rfl
  have htyY : typeOf (Value.vPtr (Ty.tStruct nX) aX) = fdY.ftype := by
    rw [hfY]
    rfl
  have hX := realInjectInto_single_field env c h nX aX fsX preX postX fdX
    (Value.vPtr (Ty.tStruct nY) aY) hcX hdX hpX1 hpX2 hrX htyX
  set h1 := hSetField h aX preX.length (Value.vPtr (Ty.tStruct nY) aY) with hh1
  have hcY1 : hLookup h1 aY = some (Value.vStruct nY fsY) := by
    rw [hh1, hLookup_setField_ne h aX preX.length _ aY (fun q => hne (Eq.symm q))]
    exact hcY
  have hY := realInjectInto_single_field env c h1 nY aY fsY preY postY fdY
    (Value.vPtr (Ty.tStruct nX) aX) hcY1 hdY hpY1 hpY2 hrY htyY
  set h2 := hSetField h1 aY preY.length (Value.vPtr (Ty.tStruct nX) aX) with hh2
  refine ⟨h2, ?_, ?_, ?_⟩
  · simp only [performInjectionsLoop]
    rw [hX]
    show performInjectionsLoop c env [Value.vPtr (Ty.tStruct nY) aY] h1 = some (h2, none)
    simp only [performInjectionsLoop]
    rw [hY]
  · rw [hh2, fieldAt_setField_ne_addr h1 aY preY.length _ aX preX.length hne]
    rw [hh1]
    exact fieldAt_setField_self h aX preX.length _ nX fsX hcX hlX
  · rw [hh2]
    exact fieldAt_setField_self h1 aY preY.length _ nY fsY hcY1 hlY

/-! Lemmas about registration. -/

theorem isPointerToStruct_none_iff (t : Value) :
    isPointerToStruct t = none ↔ t = Value.vNilInterface := by
  cases t <;> simp [isPointerToStruct, getDereferencedType, typeOf]
  case vNil p => cases p <;> simp
  case vPtr p a => cases p <;> simp

theorem interfaceSetAdd_none_iff (s : List Value) (t : Value) :
    interfaceSetAdd s t = none ↔ comparableVal t = false := by
  unfold interfaceSetAdd
  by_cases hcmp : comparableVal t = false
  · simp [hcmp]
  · by_cases hm : t ∈ s
    · simp [hcmp, hm]
    · simp [hcmp, hm]

theorem interfaceSetAdd_mem (s : List Value) (t : Value) (pr : Bool × List Value)
    (hpr : interfaceSetAdd s t = some pr) : t ∈ pr.2 := by
  unfold interfaceSetAdd at hpr
  by_cases hcmp : comparableVal t = false
  · rw [if_pos hcmp] at hpr
    cases hpr
  · rw [if_neg hcmp] at hpr
    by_cases hm : t ∈ s
    · rw [if_pos hm] at hpr
      cases hpr
      exact hm
    · rw [if_neg hm] at hpr
      cases hpr
      simp

theorem interfaceSetAdd_idem (s : List Value) (t : Value) (pr : Bool × List Value)
    (hpr : interfaceSetAdd s t = some pr) (hm : t ∈ s) : pr.2 = s := by
  unfold interfaceSetAdd at hpr
  by_cases hcmp : comparableVal t = false
  · rw [if_pos hcmp] at hpr
    cases hpr
  · rw [if_neg hcmp] at hpr
    rw [if_pos hm] at hpr
    cases hpr
    rfl

/-- Inversion of a completed `Add`: what the returned container holds. -/
theorem add_some_inv (c : Container) (t : Value) (name : String) (c2 : Container)
    (hadd : c.Add t name = some c2) :
    c2.dependenciesByName = (if name ≠ "" then alInsert c.dependenciesByName name t
      else c.dependenciesByName) ∧
    c2.dependenciesByType = alInsert c.dependenciesByType (typeOf t) t ∧
    ((isPointerToStruct t = some true ∧ ∃ pr,
        interfaceSetAdd c.possibleInjectionSet t = some pr ∧ c2.possibleInjectionSet = pr.2) ∨
      (isPointerToStruct t = some false ∧
        c2.possibleInjectionSet = c.possibleInjectionSet)) := by
  unfold Container.Add at hadd
  cases hp : isPointerToStruct t with
  | none => rw [hp] at hadd; cases hadd
  | some bv =>
    rw [hp] at hadd
    cases bv with
    | true =>
      cases hpr : interfaceSetAdd c.possibleInjectionSet t with
      | none => rw [hpr] at hadd; cases hadd
      | some pr =>
        rw [hpr] at hadd
        have hadd2 : some (Container.mk
            (if name ≠ "" then alInsert c.dependenciesByName name t
             else c.dependenciesByName)
            (alInsert c.dependenciesByType (typeOf t) t) pr.2) = some c2 := hadd
        cases hadd2
        exact ⟨rfl, rfl, Or.inl ⟨rfl, pr, rfl, rfl⟩⟩
    | false =>
      have hadd2 : some (Container.mk
          (if name ≠ "" then alInsert c.dependenciesByName name t
           else c.dependenciesByName)
          (alInsert c.dependenciesByType (typeOf t) t) c.possibleInjectionSet) = some c2 := hadd
      cases hadd2
      exact ⟨rfl, rfl, Or.inr ⟨rfl, rfl⟩⟩

theorem alLookup_add_other (c : Container) (t : Value) (nm name : String) (c2 : Container)
    (hadd : c.Add t nm = some c2) (hne : name ≠ nm) :
    alLookup c2.dependenciesByName name = alLookup c.dependenciesByName name := by
  rw [(add_some_inv c t nm c2 hadd).1]
  by_cases hn : nm ≠ ""
  · rw [if_pos hn]
    exact alLookup_insert_ne _ nm name t hne
  · rw [if_neg hn]

theorem buildContainerAux_not_registered :
    ∀ (adds : List (Value × String)) (c c2 : Container) (name : String),
    buildContainerAux c adds = some c2 → name ∉ adds.map Prod.snd →
    alLookup c.dependenciesByName name = none →
    alLookup c2.dependenciesByName name = none
  | [], c, c2, name, hb, _, h0 => by
      cases hb
      exact h0
  | p :: rest, c, c2, name, hb, hnm, h0 => by
      have h1 : name ≠ p.2 := fun q => hnm (by simp [q])
      have h2 : name ∉ rest.map Prod.snd := fun q => hnm (by simp [q])
      simp only [buildContainerAux] at hb
      cases hadd : c.Add p.1 p.2 with
      | none => rw [hadd] at hb; cases hb
      | some c1 =>
        rw [hadd] at hb
        apply buildContainerAux_not_registered rest c1 c2 name hb h2
        rw [alLookup_add_other c p.1 p.2 name c1 hadd h1]
        exact h0

/-- C6 (amended): parsing is pure and total; the empty string yields no
request; otherwise the raw tag is split at EVERY separator occurrence,
part 1 (up to the first comma, possibly empty) becomes the dependency
name, and `autoInject` is true exactly when a second comma-separated
component exists (i.e. the string contains a comma) and that second
component — the text between the first comma and the next comma or the
end — is exactly the keyword `auto`.  (The original claim's split "into at
most two parts" fails on raw tags with two or more commas; see the
counterexample.) -/
theorem parseFieldTag_grammar :
    parseFieldTag "" = none ∧
    (∀ s : String, s ≠ "" → ',' ∉ s.toList → parseFieldTag s = some (FieldTag.mk s false)) ∧
    (∀ s t : String, ',' ∉ s.toList → ',' ∉ t.toList →
      parseFieldTag (s ++ "," ++ t) = some (FieldTag.mk s (decide (t = "auto")))) ∧
    (∀ s t u : String, ',' ∉ s.toList → ',' ∉ t.toList →
      parseFieldTag (s ++ "," ++ t ++ "," ++ u) = some (FieldTag.mk s (decide (t = "auto")))) := by
  refine ⟨rfl, ?_, ?_, ?_⟩
  · intro s hne hs
    unfold parseFieldTag
    rw [if_neg hne, goSplit_no_comma s hs]
    rfl
  · intro s t hs ht
    unfold parseFieldTag
    rw [if_neg (append_comma_ne_empty s t), goSplit_one_comma s t hs, goSplit_no_comma t ht]
    rfl
  · intro s t u hs ht
    have hassoc : s ++ "," ++ t ++ "," ++ u = s ++ "," ++ (t ++ "," ++ u) := by
      rw [string_append_assoc (s ++ "," ++ t) "," u,
        string_append_assoc (s ++ ",") t ("," ++ u)]
      rw [← string_append_assoc t "," u]
    rw [hassoc]
    unfold parseFieldTag
    rw [if_neg (append_comma_ne_empty s (t ++ "," ++ u)),
      goSplit_one_comma s (t ++ "," ++ u) hs, goSplit_one_comma t u ht]
    rfl

/-- Witness for C6: a named auto tag parses to the name with
`autoInject = true`. -/
theorem parseFieldTag_grammar_witness :
    parseFieldTag ("name" ++ "," ++ "auto") =
      some (FieldTag.mk "name" (decide ("auto" = "auto"))) :=
  parseFieldTag_grammar.2.2.1 "name" "auto" (by decide) (by decide)

/-- C6 counterexample: on the raw tag `",auto,"` the source splits into
the three components `["", "auto", ""]` and tests the second against
`"auto"`, yielding `autoInject = true`, whereas the claim's at-most-two
part split makes part 2 the remainder `"auto,"`, which is not exactly the
keyword, so the claim predicts `autoInject = false`. -/
theorem parseFieldTag_multi_comma_diverges :
    parseFieldTag ",auto," = some (FieldTag.mk "" true) ∧
    parseFieldTagSpec ",auto," = some (FieldTag.mk "" false) := by
  exact ⟨by decide, by decide⟩

/-- C5 (amended): for every target value whose runtime type is non-nil:
if its (possibly dereferenced) type is not a struct kind — e.g. a scalar,
or a handle to a non-record value — `InjectInto` returns the
invalid-target error with nothing assigned; the validation passes exactly
for struct values and (possibly nil) pointers whose pointee type is a
struct, and whenever it passes the call never returns the invalid-target
error.  On the untyped nil interface the kind check itself aborts
abnormally instead of returning the error.  (The original claim fails on
a bare struct value — not a handle, yet it passes the validation, after
which the call aborts abnormally in field iteration — and on the untyped
nil interface; see the counterexample.) -/
theorem injectInto_target_kind_validation (env : Env) (c : Container) (h : Heap) (t : Value) :
    (isPointerToStruct t = some false →
      c.InjectInto env h t = some (h, [], some SummerError.invalidTargetKind)) ∧
    (isPointerToStruct t = none → c.InjectInto env h t = none) ∧
    (isPointerToStruct t = none ↔ t = Value.vNilInterface) ∧
    (isPointerToStruct t = some true ↔
      ((∃ n fs, t = Value.vStruct n fs) ∨ (∃ n a, t = Value.vPtr (Ty.tStruct n) a) ∨
        (∃ n, t = Value.vNil (Ty.tStruct n)))) ∧
    (∀ r, c.InjectInto env h t = some r → r.2.2 = some SummerError.invalidTargetKind →
      isPointerToStruct t = some false) := by
  refine ⟨?_, ?_, isPointerToStruct_none_iff t, ?_, ?_⟩
  · intro hf
    unfold Container.InjectInto Container.realInjectInto
    rw [hf]
  · intro hf
    unfold Container.InjectInto Container.realInjectInto
    rw [hf]
  · cases t with
    | vNilInterface => simp [isPointerToStruct, getDereferencedType, typeOf]
    | vStr s => simp [isPointerToStruct, getDereferencedType, typeOf]
    | vInt n => simp [isPointerToStruct, getDereferencedType, typeOf]
    | vNil p => cases p <;> simp [isPointerToStruct, getDereferencedType, typeOf]
    | vPtr p a => cases p <;> simp [isPointerToStruct, getDereferencedType, typeOf]
    | vSlice e i2 => simp [isPointerToStruct, getDereferencedType, typeOf]
    | vStruct n fs => simp [isPointerToStruct, getDereferencedType, typeOf]
  · intro r hr hinv
    cases hb : isPointerToStruct t with
    | none =>
      unfold Container.InjectInto Container.realInjectInto at hr
      rw [hb] at hr
      cases hr
    | some bv =>
      cases bv with
      | false => rfl
      | true =>
        exfalso
        unfold Container.InjectInto Container.realInjectInto at hr
        rw [hb] at hr
        cases hit : iterateFields env h t c.performInjection with
        | none => rw [hit] at hr; cases hr
        | some res =>
          rw [hit] at hr
          rcases res with ⟨h2, eo⟩
          cases eo with
          | some e =>
            have hr2 : some ((h2, [], some e) : Heap × List Value × Option SummerError)
                = some r := hr
            cases hr2
            rcases iterateFields_inv env h t c.performInjection (h2, some e) hit with
              ⟨p, a2, n, fs, ht2, hc2, hres⟩
            exact iterateFieldsLoop_snd_ne_invalid c (Ty.tStruct n) a2 (env.structDefs n) 0 h
              (h2, some e) hres hinv
          | none =>
            have hr2 : some ((h2, performPostInjectionHook env t, none) :
                Heap × List Value × Option SummerError) = some r := hr
            cases hr2
            exact absurd hinv (by simp)

/-- Witness for C5: injecting into a handle to a plain int (a pointer to a
non-record value) yields the invalid-target error and leaves the heap
untouched. -/
theorem injectInto_target_kind_validation_witness :
    NewContainer.InjectInto (Env.mk (fun _ => []) (fun _ => false)) [] (Value.vPtr Ty.tInt 0)
      = some ([], [], some SummerError.invalidTargetKind) :=
  (injectInto_target_kind_validation (Env.mk (fun _ => []) (fun _ => false)) NewContainer []
    (Value.vPtr Ty.tInt 0)).1 (by decide)

/-- C5 counterexample: a bare struct value is not a handle to a record,
yet it passes the source's `isPointerToStruct` validation (the function
only dereferences when the target is a pointer), so `InjectInto` does not
return the invalid-target error for it; instead the run aborts abnormally
(`reflect.Value.Elem` panics on a non-pointer).  Likewise the untyped nil
interface value — not a handle to a record either — makes the call abort
abnormally (`Kind()` panics on the nil `reflect.Type` inside the
validation itself) instead of returning the claimed error. -/
theorem injectInto_bare_struct_panics :
    isPointerToStruct (Value.vStruct "S" []) = some true ∧
    NewContainer.InjectInto (Env.mk (fun _ => []) (fun _ => false)) [] (Value.vStruct "S" [])
      = none ∧
    NewContainer.InjectInto (Env.mk (fun _ => []) (fun _ => false)) [] (Value.vStruct "S" [])
      ≠ some ([], [], some SummerError.invalidTargetKind) ∧
    NewContainer.InjectInto (Env.mk (fun _ => []) (fun _ => false)) [] Value.vNilInterface
      = none := by
  exact ⟨by decide, by decide, by decide, by decide⟩

/-- C9 (amended): registration cannot fail with an error, but it can
abort abnormally, exactly on the untyped nil interface (the injectability
check's `Kind()` call panics on the nil type) and on injectable instances
of non-comparable dynamic type (the set insertion's map hashing panics);
every completed `Add` stores the instance in the type map under its exact
runtime type, in the name map exactly when the name is non-empty, and,
when the instance is structurally injectable, adds it to the injection set
idempotently; non-injectable instances leave the set unchanged. -/
theorem add_registration_characterization (c : Container) (t : Value) (name : String) :
    (c.Add t name = none ↔
      (t = Value.vNilInterface ∨
        (isPointerToStruct t = some true ∧ comparableVal t = false))) ∧
    (∀ c2, c.Add t name = some c2 →
      alLookup c2.dependenciesByType (typeOf t) = some t ∧
      (name ≠ "" → alLookup c2.dependenciesByName name = some t) ∧
      (name = "" → c2.dependenciesByName = c.dependenciesByName) ∧
      (isPointerToStruct t = some true → t ∈ c2.possibleInjectionSet ∧
        (∀ c3, c2.Add t name = some c3 →
          c3.possibleInjectionSet = c2.possibleInjectionSet)) ∧
      (isPointerToStruct t = some false →
        c2.possibleInjectionSet = c.possibleInjectionSet)) := by
  constructor
  · unfold Container.Add
    cases hp : isPointerToStruct t with
    | none =>
      have ht := (isPointerToStruct_none_iff t).mp hp
      show (none : Option Container) = none ↔ _
      simp [ht]
    | some bv =>
      have htn : ¬ t = Value.vNilInterface := by
        intro q
        have h2 := (isPointerToStruct_none_iff t).mpr q
        rw [h2] at hp
        cases hp
      cases bv with
      | true =>
        cases hpr : interfaceSetAdd c.possibleInjectionSet t with
        | none =>
          have hcmp := (interfaceSetAdd_none_iff _ t).mp hpr
          show (none : Option Container) = none ↔ _
          simp [hcmp]
        | some pr =>
          have hcmp : ¬ comparableVal t = false := by
            intro q
            rw [(interfaceSetAdd_none_iff _ t).mpr q] at hpr
            cases hpr
          show some _ = none ↔ _
          simp [htn, hcmp]
      | false =>
        show some _ = none ↔ _
        simp [htn]
  · intro c2 hadd
    rcases add_some_inv c t name c2 hadd with ⟨hn, hty2, hset⟩
    refine ⟨?_, ?_, ?_, ?_, ?_⟩
    · rw [hty2]
      exact alLookup_insert_self _ _ _
    · intro hne
      rw [hn, if_pos hne]
      exact alLookup_insert_self _ _ _
    · intro he
      rw [hn, if_neg (by simp [he])]
    · intro hp
      rcases hset with ⟨_, pr, hpr, hps⟩ | ⟨hpf, _⟩
      · constructor
        · rw [hps]
          exact interfaceSetAdd_mem _ _ pr hpr
        · intro c3 hadd3
          rcases add_some_inv c2 t name c3 hadd3 with ⟨_, _, hset3⟩
          rcases hset3 with ⟨_, pr3, hpr3, hps3⟩ | ⟨hpf3, _⟩
          · rw [hps3]
            apply interfaceSetAdd_idem _ _ pr3 hpr3
            rw [hps]
            exact interfaceSetAdd_mem _ _ pr hpr
          · rw [hp] at hpf3
            cases hpf3
      · rw [hp] at hpf
        cases hpf
    · intro hpf2
      rcases hset with ⟨hpt, _, _, _⟩ | ⟨_, hps⟩
      · rw [hpt] at hpf2
        cases hpf2
      · exact hps

/-- Witness for C9: a concrete injectable pointer instance registers in
the type map and the injection set. -/
theorem add_registration_characterization_witness :
    alLookup (((NewContainer.Add (Value.vPtr (Ty.tStruct "S") 1) "s").getD
        NewContainer).dependenciesByType) (typeOf (Value.vPtr (Ty.tStruct "S") 1))
      = some (Value.vPtr (Ty.tStruct "S") 1) ∧
    Value.vPtr (Ty.tStruct "S") 1 ∈ ((NewContainer.Add (Value.vPtr (Ty.tStruct "S") 1) "s").getD
      NewContainer).possibleInjectionSet :=
  have h := (add_registration_characterization NewContainer (Value.vPtr (Ty.tStruct "S") 1)
    "s").2 ((NewContainer.Add (Value.vPtr (Ty.tStruct "S") 1) "s").getD NewContainer) (by decide)
  ⟨h.1, (h.2.2.2.1 (by decide)).1⟩

/-- C9 counterexample: `Add` is not total — the claim's "cannot fail for
any instance value ... without abnormal termination" is false.  On the
untyped nil interface the injectability check panics (`Kind()` on the nil
`reflect.Type`), and a bare struct with a slice field passes the
injectability check and then panics when `interfaceSet.Add` hashes it as
a map key. -/
theorem add_panics_on_nil_and_noncomparable :
    NewContainer.Add Value.vNilInterface "x" = none ∧
    isPointerToStruct (Value.vStruct "S" [Value.vSlice Ty.tInt 0]) = some true ∧
    NewContainer.Add (Value.vStruct "S" [Value.vSlice Ty.tInt 0]) "" = none := by
  exact ⟨by decide, by decide, by decide⟩

/-- C8: a dependency registered by a completed `Add` under a non-empty
name is returned by `Get` with the found flag; `Get` on a name never
registered (over any completed registration sequence from the empty
container) signals not-found rather than failing; and `Get` reads only
the name map — two containers agreeing on the name map give identical
`Get` results whatever their type maps and injection sets hold. -/
theorem get_name_map (name : String) :
    (∀ (c : Container) (t : Value) (c2 : Container), name ≠ "" → c.Add t name = some c2 →
      c2.Get name = (some t, true)) ∧
    (∀ (adds : List (Value × String)) (c2 : Container), name ∉ adds.map Prod.snd →
      buildContainer adds = some c2 → c2.Get name = (none, false)) ∧
    (∀ c1 c2 : Container, c1.dependenciesByName = c2.dependenciesByName →
      c1.Get name = c2.Get name) := by
  refine ⟨?_, ?_, ?_⟩
  · intro c t c2 hne hadd
    unfold Container.Get
    rw [(add_some_inv c t name c2 hadd).1, if_pos hne, alLookup_insert_self]
  · intro adds c2 hnm hb
    unfold Container.Get
    rw [buildContainerAux_not_registered adds NewContainer c2 name hb hnm rfl]
  · intro c1 c2 heq
    unfold Container.Get
    rw [heq]

/-- Witness for C8: a concrete registration is found again, and a fresh
name is reported absent. -/
theorem get_name_map_witness :
    ((NewContainer.Add (Value.vStr "value") "nameHere").getD NewContainer).Get "nameHere"
      = (some (Value.vStr "value"), true) ∧
    ((buildContainer [(Value.vStr "value", "nameHere")]).getD NewContainer).Get "other"
      = (none, false) :=
  ⟨(get_name_map "nameHere").1 NewContainer (Value.vStr "value")
      ((NewContainer.Add (Value.vStr "value") "nameHere").getD NewContainer)
      (by decide) (by decide),
   (get_name_map "other").2.1 [(Value.vStr "value", "nameHere")]
      ((buildContainer [(Value.vStr "value", "nameHere")]).getD NewContainer)
      (by decide) (by decide)⟩

/-- C7: automatic-mode resolution looks up the field's exact declared
static type in the type map: a hit whose entry has that exact runtime
type assigns the stored instance into the field (on containers built by
`Add` the entry under a type key always has that runtime type, so the
assignability check cannot fire; a mismatched entry would make the
assignment panic), a miss fails with the missing-typed-dependency error
carrying the field type, owning type and field name; and after two
completed registrations of instances of the same exact runtime type, an
auto-mode field of that type receives the most recently added instance. -/
theorem performAutoInjection_exact_type (c : Container) (h : Heap) (p : InjectionPoint) :
    (∀ d, alLookup c.dependenciesByType p.typeField.ftype = some d →
      typeOf d = p.typeField.ftype →
      c.performAutoInjection h p = some (hSetField h p.addr p.index d, none)) ∧
    (∀ d, alLookup c.dependenciesByType p.typeField.ftype = some d →
      typeOf d ≠ p.typeField.ftype → c.performAutoInjection h p = none) ∧
    (alLookup c.dependenciesByType p.typeField.ftype = none →
      c.performAutoInjection h p =
        some (h, some (SummerError.missingTypedDependency p.elementType p.typeField.fname
          p.typeField.ftype))) ∧
    (∀ (t1 t2 : Value) (n1 n2 : String) (c1 c2 : Container),
      c.Add t1 n1 = some c1 → c1.Add t2 n2 = some c2 → typeOf t1 = typeOf t2 →
      p.typeField.ftype = typeOf t2 →
      c2.performAutoInjection h p = some (hSetField h p.addr p.index t2, none)) := by
  refine ⟨?_, ?_, ?_, ?_⟩
  · intro d hd hty
    unfold Container.performAutoInjection
    rw [hd]
    show (if typeOf d = p.typeField.ftype then some (hSetField h p.addr p.index d, none)
          else none) = _
    rw [if_pos hty]
  · intro d hd hty
    unfold Container.performAutoInjection
    rw [hd]
    show (if typeOf d = p.typeField.ftype then some (hSetField h p.addr p.index d, none)
          else none) = _
    rw [if_neg hty]
  · intro hnone
    unfold Container.performAutoInjection
    rw [hnone]
  · intro t1 t2 n1 n2 c1 c2 h1 h2 _hty hft
    have hm2 := (add_some_inv c1 t2 n2 c2 h2).2.1
    unfold Container.performAutoInjection
    rw [hft, hm2, alLookup_insert_self]
    show (if typeOf t2 = typeOf t2 then some (hSetField h p.addr p.index t2, none)
          else none) = _
    rw [if_pos rfl]

/-- Witness for C7: with a string registered twice, an auto string field
receives the second registration. -/
theorem performAutoInjection_exact_type_witness :
    ((buildContainer [(Value.vStr "first", ""), (Value.vStr "second", "")]).getD
        NewContainer).performAutoInjection [(0, Value.vStruct "S" [Value.vStr ""])]
      (InjectionPoint.mk (Ty.tStruct "S") 0 0 (FieldDecl.mk "AutoString" Ty.tString ",auto" true))
      = some (hSetField [(0, Value.vStruct "S" [Value.vStr ""])] 0 0 (Value.vStr "second"),
        none) :=
  (performAutoInjection_exact_type NewContainer [(0, Value.vStruct "S" [Value.vStr ""])]
      (InjectionPoint.mk (Ty.tStruct "S") 0 0
        (FieldDecl.mk "AutoString" Ty.tString ",auto" true))).2.2.2
    (Value.vStr "first") (Value.vStr "second") "" ""
    ((NewContainer.Add (Value.vStr "first") "").getD NewContainer)
    ((buildContainer [(Value.vStr "first", ""), (Value.vStr "second", "")]).getD NewContainer)
    (by decide) (by decide) (by decide) (by decide)

/-- C4: when every field of the target resolves, `InjectInto` reports the
heap of the completed field iteration and invokes the post-injection
callback exactly once, synchronously after that iteration, precisely when
the target's type implements the hook interface; when the call returns an
error, no hook is invoked. -/
theorem injectInto_hook_exactly_once (env : Env) (c : Container) (h : Heap) (t : Value) :
    (∀ h2 hooks, c.InjectInto env h t = some (h2, hooks, none) →
      iterateFields env h t c.performInjection = some (h2, none) ∧
      hooks = performPostInjectionHook env t ∧
      (env.postInjector (typeOf t) = true → hooks = [t]) ∧
      (env.postInjector (typeOf t) = false → hooks = [])) ∧
    (∀ h2 hooks e, c.InjectInto env h t = some (h2, hooks, some e) → hooks = []) := by
  constructor
  · intro h2 hooks hr
    unfold Container.InjectInto Container.realInjectInto at hr
    cases hb : isPointerToStruct t with
    | none => rw [hb] at hr; cases hr
    | some bv =>
      rw [hb] at hr
      cases bv with
      | false =>
        have hr2 : some ((h, [], some SummerError.invalidTargetKind) :
            Heap × List Value × Option SummerError) = some (h2, hooks, none) := hr
        simp at hr2
      | true =>
        cases hit : iterateFields env h t c.performInjection with
        | none => rw [hit] at hr; cases hr
        | some res =>
          rw [hit] at hr
          rcases res with ⟨h3, eo⟩
          cases eo with
          | some e =>
            have hr2 : some ((h3, [], some e) : Heap × List Value × Option SummerError)
                = some (h2, hooks, none) := hr
            simp at hr2
          | none =>
            have hr2 : some ((h3, performPostInjectionHook env t, none) :
                Heap × List Value × Option SummerError) = some (h2, hooks, none) := hr
            have hh : h3 = h2 ∧ performPostInjectionHook env t = hooks := by
              constructor
              · exact congrArg (fun r => r.1) (Option.some.inj hr2)
              · exact congrArg (fun r => r.2.1) (Option.some.inj hr2)
            rcases hh with ⟨he1, he2⟩
            subst he1
            refine ⟨rfl, he2.symm, ?_, ?_⟩
            · intro hp
              rw [← he2]
              unfold performPostInjectionHook
              rw [hp]
              simp
            · intro hp
              rw [← he2]
              unfold performPostInjectionHook
              rw [hp]
              simp
  · intro h2 hooks e hr
    unfold Container.InjectInto Container.realInjectInto at hr
    cases hb : isPointerToStruct t with
    | none => rw [hb] at hr; cases hr
    | some bv =>
      rw [hb] at hr
      cases bv with
      | false =>
        have hr2 : some ((h, [], some SummerError.invalidTargetKind) :
            Heap × List Value × Option SummerError) = some (h2, hooks, some e) := hr
        exact (congrArg (fun r => r.2.1) (Option.some.inj hr2)).symm
      | true =>
        cases hit : iterateFields env h t c.performInjection with
        | none => rw [hit] at hr; cases hr
        | some res =>
          rw [hit] at hr
          rcases res with ⟨h3, eo⟩
          cases eo with
          | some e2 =>
            have hr2 : some ((h3, [], some e2) : Heap × List Value × Option SummerError)
                = some (h2, hooks, some e) := hr
            exact (congrArg (fun r => r.2.1) (Option.some.inj hr2)).symm
          | none =>
            have hr2 : some ((h3, performPostInjectionHook env t, none) :
                Heap × List Value × Option SummerError) = some (h2, hooks, some e) := hr
            simp at hr2

/-- Environment for the hook witness: one field-less struct type `H`
whose pointer type implements the hook interface. -/
def envHook : Env := Env.mk (fun _ => []) (fun ty => decide (ty = Ty.tPtr (Ty.tStruct "H")))

/-- Witness for C4: a hook-supporting target whose injection succeeds has
its callback invoked exactly once. -/
theorem injectInto_hook_exactly_once_witness :
    iterateFields envHook [(2, Value.vStruct "H" [])] (Value.vPtr (Ty.tStruct "H") 2)
      NewContainer.performInjection = some ([(2, Value.vStruct "H" [])], none) ∧
    [Value.vPtr (Ty.tStruct "H") 2] =
      performPostInjectionHook envHook (Value.vPtr (Ty.tStruct "H") 2) ∧
    [Value.vPtr (Ty.tStruct "H") 2] = [Value.vPtr (Ty.tStruct "H") 2] :=
  have h := (injectInto_hook_exactly_once envHook NewContainer [(2, Value.vStruct "H" [])]
    (Value.vPtr (Ty.tStruct "H") 2)).1 [(2, Value.vStruct "H" [])]
    [Value.vPtr (Ty.tStruct "H") 2] (by decide)
  ⟨h.1, h.2.1, h.2.2.1 (by decide)⟩

/-- C3: when the fields before `fd` are all processed successfully
(reaching heap `hpre` with no error and no panic) and `fd`'s resolution
fails, `InjectInto` returns `fd`'s error; the final heap is exactly
`hpre` (the earlier fields' assignments are kept — no rollback), every
field at or after the failing one still holds its original value, and no
other instance is touched. -/
theorem injectInto_field_failure_no_rollback (env : Env) (c : Container) (h : Heap)
    (n : String) (a : Nat) (fs : List Value) (pre post : List FieldDecl)
    (fd : FieldDecl) (e : SummerError) (hpre : Heap)
    (hcell : hLookup h a = some (Value.vStruct n fs))
    (hdef : env.structDefs n = pre ++ fd :: post)
    (hpreok : iterateFieldsLoop c.performInjection (Ty.tStruct n) a 0 pre h
      = some (hpre, none))
    (hfail : resolveErr c (Ty.tStruct n) fd = some e) :
    c.InjectInto env h (Value.vPtr (Ty.tStruct n) a) = some (hpre, [], some e) ∧
    (∀ j, pre.length ≤ j → fieldAt hpre a j = fieldAt h a j) ∧
    (∀ b, b ≠ a → hLookup hpre b = hLookup h b) := by
  refine ⟨?_, ?_, ?_⟩
  · exact realInjectInto_fail_field env c h n a fs pre post fd e true hpre hcell hdef
      hpreok hfail
  · intro j hj
    exact iterateFieldsLoop_frame_index c (Ty.tStruct n) a pre 0 h (hpre, none) j
      (Or.inr (by omega)) hpreok
  · intro b hb
    exact iterateFieldsLoop_frame_addr c (Ty.tStruct n) a pre 0 h (hpre, none) b hb hpreok

/-- Environment for the failing-field witness: struct `M` with a
resolvable first field and an unresolvable second field. -/
def envMiss : Env := Env.mk (fun nm => if nm = "M" then
    [FieldDecl.mk "Available" Ty.tString "HasIt" true,
     FieldDecl.mk "Unavailable" Ty.tString "NotThere" true] else []) (fun _ => false)

/-- Container for the failing-field witness. -/
def contMiss : Container := (NewContainer.Add (Value.vStr "ok") "HasIt").getD NewContainer

/-- Heap for the failing-field witness. -/
def heapMiss : Heap := [(1, Value.vStruct "M" [Value.vStr "", Value.vStr ""])]

/-- Heap after the witness's first field has been injected. -/
def heapMissAfter : Heap := [(1, Value.vStruct "M" [Value.vStr "ok", Value.vStr ""])]

/-- Witness for C3: the concrete two-field struct whose second field's
name is unregistered errors, keeps the first field's written value, and
leaves the second field and other addresses untouched. -/
theorem injectInto_field_failure_no_rollback_witness :
    contMiss.InjectInto envMiss heapMiss (Value.vPtr (Ty.tStruct "M") 1)
      = some (heapMissAfter, [],
        some (SummerError.missingNamedDependency "NotThere" (Ty.tStruct "M") "Unavailable")) ∧
    fieldAt heapMissAfter 1 1 = fieldAt heapMiss 1 1 ∧
    hLookup heapMissAfter 0 = hLookup heapMiss 0 :=
  have hh := injectInto_field_failure_no_rollback envMiss contMiss heapMiss "M" 1
    [Value.vStr "", Value.vStr ""] [FieldDecl.mk "Available" Ty.tString "HasIt" true] []
    (FieldDecl.mk "Unavailable" Ty.tString "NotThere" true)
    (SummerError.missingNamedDependency "NotThere" (Ty.tStruct "M") "Unavailable")
    heapMissAfter (by decide) (by decide) (by decide) (by decide)
  ⟨hh.1, hh.2.1 1 (by decide), hh.2.2 0 (by decide)⟩

/-- C2: during `PerformInjections`, if the instances processed before `k`
all succeed and `k`'s field resolution fails, the bulk call returns `k`'s
error with an empty hook trace — no hook fires for any instance, including
instances after `k` whose own injection would have succeeded (they are not
processed at all: the final heap is the one at `k`'s failure); if the
whole injection pass succeeds, the hook pass runs afterwards and invokes
the hook on exactly the hook-supporting instances of the set. -/
theorem performInjections_error_suppresses_hooks (env : Env) (c : Container) (h : Heap)
    (order1 order2 : List Value) :
    (∀ (pre post : List Value) (k : Value) (h1 h2 : Heap) (hooks0 : List Value)
        (e : SummerError),
      order1 = pre ++ k :: post →
      performInjectionsLoop c env pre h = some (h1, none) →
      c.realInjectInto env h1 k false = some (h2, hooks0, some e) →
      c.PerformInjections env h order1 order2 = some (h2, [], some e)) ∧
    (∀ h1, performInjectionsLoop c env order1 h = some (h1, none) →
      c.PerformInjections env h order1 order2 = some (h1, runHooks env order2, none) ∧
      (∀ t, t ∈ runHooks env order2 ↔ (t ∈ order2 ∧ env.postInjector (typeOf t) = true))) := by
  constructor
  · intro pre post k h1 h2 hooks0 e ho hpre hk
    unfold Container.PerformInjections
    rw [ho, performInjectionsLoop_append c env pre (k :: post) h, hpre]
    show (match performInjectionsLoop c env (k :: post) h1 with
          | none => none
          | some (h3, some e2) => some (h3, [], some e2)
          | some (h3, none) => some (h3, runHooks env order2, none)) = _
    simp only [performInjectionsLoop]
    rw [hk]
  · intro h1 hl
    unfold Container.PerformInjections
    rw [hl]
    exact ⟨rfl, fun t => runHooks_mem env order2 t⟩

/-- Environment for the failed-bulk-injection witness: a struct with an
unresolvable named field, and a field-less hook-supporting struct. -/
def envFail : Env := Env.mk (fun nm =>
    if nm = "missingStruct" then [FieldDecl.mk "Missing" Ty.tString "Missing" true]
    else []) (fun ty => decide (ty = Ty.tPtr (Ty.tStruct "hookTestingStruct")))

/-- The failing instance of the bulk-injection witness. -/
def missV : Value := Value.vPtr (Ty.tStruct "missingStruct") 1

/-- The hook-supporting instance of the bulk-injection witness. -/
def hookV : Value := Value.vPtr (Ty.tStruct "hookTestingStruct") 2

/-- Container for the failed-bulk-injection witness. -/
def contFail : Container := (buildContainer [(missV, ""), (hookV, "")]).getD NewContainer

/-- Heap for the failed-bulk-injection witness. -/
def heapFail : Heap := [(1, Value.vStruct "missingStruct" [Value.vStr ""]),
    (2, Value.vStruct "hookTestingStruct" [])]

/-- Witness for C2: with the failing instance reached first, the bulk call
returns its error and fires zero hooks, even though the second (hook
supporting) instance would have succeeded. -/
theorem performInjections_error_suppresses_hooks_witness :
    contFail.PerformInjections envFail heapFail [missV, hookV] [missV, hookV] =
      some (heapFail, [],
        some (SummerError.missingNamedDependency "Missing"
          (Ty.tStruct "missingStruct") "Missing")) :=
  (performInjections_error_suppresses_hooks envFail contFail heapFail
      [missV, hookV] [missV, hookV]).1 [] [hookV] missV heapFail heapFail []
    (SummerError.missingNamedDependency "Missing" (Ty.tStruct "missingStruct") "Missing")
    rfl (by decide) (by decide)

/-- C10: the read-only operations never mutate the container — in the
embedding `Get`, `realInjectInto` (hence `InjectInto`) and
`PerformInjections` are pure functions of the container, mirroring that
the source only ever reads the maps and the set outside `Add` — and
injection writes only into the injected targets' heap cells: any address
that is not the address of the target (respectively of some instance in
the processed sequence) holds the same value after the call as before,
whether the call succeeds, errors, or panics mid-way; `Get` takes no heap
at all. -/
theorem injection_frame (env : Env) (c : Container) (h : Heap) :
    (∀ (t : Value) (ph : Bool) (r : Heap × List Value × Option SummerError) (b : Nat),
      c.realInjectInto env h t ph = some r → addrOf t ≠ some b →
      hLookup r.1 b = hLookup h b) ∧
    (∀ (order1 order2 : List Value) (r : Heap × List Value × Option SummerError) (b : Nat),
      c.PerformInjections env h order1 order2 = some r →
      (∀ k ∈ order1, addrOf k ≠ some b) → hLookup r.1 b = hLookup h b) := by
  constructor
  · intro t ph r b hr hb
    exact realInjectInto_frame env c h t ph r hr b hb
  · intro order1 order2 r b hr hall
    unfold Container.PerformInjections at hr
    cases hl : performInjectionsLoop c env order1 h with
    | none => rw [hl] at hr; cases hr
    | some res =>
      rcases res with ⟨h2, eo⟩
      rw [hl] at hr
      have hf := performInjectionsLoop_frame env c order1 h (h2, eo) b hl hall
      cases eo with
      | some e =>
        cases hr
        exact hf
      | none =>
        cases hr
        exact hf

/-- Environment for the circular-injection witness (mirrors the source's
circular-dependency test): `One` has a field named `"2"` of type
pointer-to-`Two`, `Two` a field named `"1"` of type pointer-to-`One`. -/
def envCirc : Env := Env.mk (fun nm =>
    if nm = "One" then [FieldDecl.mk "Two" (Ty.tPtr (Ty.tStruct "Two")) "2" true]
    else if nm = "Two" then [FieldDecl.mk "One" (Ty.tPtr (Ty.tStruct "One")) "1" true]
    else []) (fun _ => false)

/-- The first mutually-referencing instance. -/
def oneV : Value := Value.vPtr (Ty.tStruct "One") 1

/-- The second mutually-referencing instance. -/
def twoV : Value := Value.vPtr (Ty.tStruct "Two") 2

/-- Container with both circular instances registered by name. -/
def contCirc : Container := (buildContainer [(oneV, "1"), (twoV, "2")]).getD NewContainer

/-- Heap for the circular-injection witness: both fields start nil. -/
def heapCirc : Heap := [(1, Value.vStruct "One" [Value.vNil (Ty.tStruct "Two")]),
    (2, Value.vStruct "Two" [Value.vNil (Ty.tStruct "One")])]

/-- Witness for C10: bulk injection over the two circular instances at
addresses 1 and 2 leaves address 0 — not an injected target — unchanged. -/
theorem injection_frame_witness :
    hLookup ([(1, Value.vStruct "One" [twoV]), (2, Value.vStruct "Two" [oneV])] : Heap) 0
      = hLookup heapCirc 0 :=
  (injection_frame envCirc contCirc heapCirc).2 [oneV, twoV] [oneV, twoV]
    ([(1, Value.vStruct "One" [twoV]), (2, Value.vStruct "Two" [oneV])], [], none) 0
    (by decide) (by decide)

/-- C1: for a container in which the two registered pointer-to-struct
instances at `aA` and `aB` each carry one tagged, settable field whose
declared type is exactly the other instance's pointer type and whose
request resolves (by name or by exact type) to the other instance — all
their other fields being untagged — `PerformInjections` returns no error
under either of the two possible iteration orders of the two-element set,
and afterwards the tagged field of each instance holds exactly the other
instance.  The declared-type hypotheses make the `reflect.Value.Set`
assignability requirement hold, so no panic occurs, and the call
terminates by construction. -/
theorem performInjections_mutual_pair (env : Env) (c : Container) (h : Heap)
    (nA nB : String) (aA aB : Nat) (fsA fsB : List Value)
    (preA postA preB postB : List FieldDecl) (fdA fdB : FieldDecl)
    (order1 order2 : List Value)
    (hne : aA ≠ aB)
    (hcA : hLookup h aA = some (Value.vStruct nA fsA))
    (hcB : hLookup h aB = some (Value.vStruct nB fsB))
    (hdA : env.structDefs nA = preA ++ fdA :: postA)
    (hdB : env.structDefs nB = preB ++ fdB :: postB)
    (hpA1 : ∀ q ∈ preA, q.tag = "") (hpA2 : ∀ q ∈ postA, q.tag = "")
    (hpB1 : ∀ q ∈ preB, q.tag = "") (hpB2 : ∀ q ∈ postB, q.tag = "")
    (hlA : preA.length < fsA.length) (hlB : preB.length < fsB.length)
    (hfA : fdA.ftype = Ty.tPtr (Ty.tStruct nB)) (hfB : fdB.ftype = Ty.tPtr (Ty.tStruct nA))
    (hrA : resolveVal c fdA = some (Value.vPtr (Ty.tStruct nB) aB))
    (hrB : resolveVal c fdB = some (Value.vPtr (Ty.tStruct nA) aA))
    (ho1 : order1 = [Value.vPtr (Ty.tStruct nA) aA, Value.vPtr (Ty.tStruct nB) aB] ∨
           order1 = [Value.vPtr (Ty.tStruct nB) aB, Value.vPtr (Ty.tStruct nA) aA]) :
    ∃ h2 hooks, c.PerformInjections env h order1 order2 = some (h2, hooks, none) ∧
      fieldAt h2 aA preA.length = some (Value.vPtr (Ty.tStruct nB) aB) ∧
      fieldAt h2 aB preB.length = some (Value.vPtr (Ty.tStruct nA) aA) := by
  cases ho1 with
  | inl ho =>
    rcases performInjectionsLoop_pair env c h nA nB aA aB fsA fsB preA postA preB postB
      fdA fdB hne hcA hcB hdA hdB hpA1 hpA2 hpB1 hpB2 hlA hlB hfA hfB hrA hrB with
      ⟨h2, hl, f1, f2⟩
    refine ⟨h2, runHooks env order2, ?_, f1, f2⟩
    unfold Container.PerformInjections
    rw [ho, hl]
  | inr ho =>
    rcases performInjectionsLoop_pair env c h nB nA aB aA fsB fsA preB postB preA postA
      fdB fdA (fun q => hne (Eq.symm q)) hcB hcA hdB hdA hpB1 hpB2 hpA1 hpA2 hlB hlA
      hfB hfA hrB hrA with ⟨h2, hl, f1, f2⟩
    refine ⟨h2, runHooks env order2, ?_, f2, f1⟩
    unfold Container.PerformInjections
    rw [ho, hl]

/-- Witness for C1: the source's circular-dependency test scenario — two
instances whose single named fields reference each other — injects
successfully and wires the cycle. -/
theorem performInjections_mutual_pair_witness :
    ∃ h2 hooks, contCirc.PerformInjections envCirc heapCirc [oneV, twoV] [oneV, twoV]
        = some (h2, hooks, none) ∧
      fieldAt h2 1 0 = some twoV ∧
      fieldAt h2 2 0 = some oneV :=
  performInjections_mutual_pair envCirc contCirc heapCirc "One" "Two" 1 2
    [Value.vNil (Ty.tStruct "Two")] [Value.vNil (Ty.tStruct "One")]
    [] [] [] [] (FieldDecl.mk "Two" (Ty.tPtr (Ty.tStruct "Two")) "2" true)
    (FieldDecl.mk "One" (Ty.tPtr (Ty.tStruct "One")) "1" true)
    [oneV, twoV] [oneV, twoV]
    (by decide) (by decide) (by decide) (by decide) (by decide)
    (by decide) (by decide) (by decide) (by decide)
    (by decide) (by decide) (by decide) (by decide)
    (by decide) (by decide)
    (Or.inl rfl)
